import Mathlib

/-!
Verification of the Slot-Monte-Carlo simulator core.

The definitions below are shallow embeddings of the C++ sources:
`MonteCarloSimulator.cpp` / `MonteCarloSimulator.h` (online moment
accumulation, histogram binning, confidence intervals),
`Statistics.h` and its implementation file (mean/variance/percentile
helpers and the t-critical-value lookup), `SS03Game.cpp` (the
trigger-count game variant) and the DeepDive module (the
pool-multiplier game variant).

Modelling conventions:
* `double` values that the code only adds, subtracts, multiplies,
  divides and compares are modelled as `ℚ` — the exact-arithmetic
  idealisation of IEEE doubles; the only genuinely irrational
  operation in the covered code, the `sqrt` of the batched-means
  standard error, is modelled in `ℝ` with `Real.sqrt`.
* `long long` / `int` counters are modelled as `ℤ` (or `ℕ` where the
  code can only ever hold non-negative values).  Parenthesised
  sub-expressions that the source computes entirely in `long long`
  before the conversion to `double` — the squared and cubed combined
  counts and the squared counts in `OnlineStats::combine`, and the
  `count*count - 3*count + 3` factor in `OnlineStats::update` — can
  overflow 64-bit arithmetic at sizes the tool reaches, so they are
  wrapped with `toInt64`, the two's-complement reduction modulo
  `2^64`.
* the Mersenne-twister stream is abstracted as an infinite sequence of
  raw draws: `pick n` feeds the `uniform_int_distribution` calls (the
  code reduces it modulo the pool size) and `chance n` feeds the
  `uniform_real_distribution(0,1)` calls.  Each distribution call
  consumes one position of the stream.
* the two game-round `while` loops are written with an explicit fuel
  parameter; `none` means the fuel was exhausted while the loop was
  still running, so `∀ fuel, … = none` is non-termination of the C++
  loop and `… = some s` is normal loop exit with final state `s`.
-/

namespace SlotMC

/-! ### OnlineStats (MonteCarloSimulator.h / MonteCarloSimulator.cpp lines 16-44) -/

@[ext]
structure OnlineStats where
  count : ℕ
  M1 : ℚ
  M2 : ℚ
  M3 : ℚ
  M4 : ℚ
deriving DecidableEq

/-- The freshly constructed accumulator: `count = 0`, all moments `0.0`. -/
def OnlineStats.init : OnlineStats := ⟨0, 0, 0, 0, 0⟩

/-- Embeds the two's-complement wraparound of a signed 64-bit `long long`:
the representative of `n` modulo `2^64` lying in `[-2^63, 2^63)`.  Signed
overflow is undefined behaviour in C++; this is the wraparound the compiled
code produces on every mainstream implementation. -/
def toInt64 (n : ℤ) : ℤ := (n + 2 ^ 63) % 2 ^ 64 - 2 ^ 63

theorem toInt64_eq_self {n : ℤ} (h1 : -(2 ^ 63) ≤ n) (h2 : n < 2 ^ 63) :
    toInt64 n = n := by
  unfold toInt64
  omega

/-- Embeds `OnlineStats::update(double value)`, MonteCarloSimulator.cpp lines 16-27.
`count` is incremented first; every formula below uses the new count.  The
parenthesised `(count*count - 3*count + 3)` on line 24 is computed entirely in
`long long` before its conversion to `double`, so it is wrapped with `toInt64`.
The `count` field itself is kept as an exact natural (the stored `long long`
count only overflows after `2^63` update calls), and `(count - 1)` and
`(count - 2)` cannot overflow for such counts. -/
def OnlineStats.update (s : OnlineStats) (value : ℚ) : OnlineStats :=
  let count : ℕ := s.count + 1
  let n : ℚ := (count : ℕ)
  let delta : ℚ := value - s.M1
  let delta_n : ℚ := delta / n
  let delta_n2 : ℚ := delta_n * delta_n
  let term1 : ℚ := delta * delta_n * (n - 1)
  { count := count
    M1 := s.M1 + delta_n
    M4 := s.M4
            + term1 * delta_n2
                * ((toInt64 ((count : ℤ) * (count : ℤ) - 3 * (count : ℤ) + 3) : ℤ) : ℚ)
            + 6 * delta_n2 * s.M2 - 4 * delta_n * s.M3
    M3 := s.M3 + term1 * delta_n * (n - 2) - 3 * delta_n * s.M2
    M2 := s.M2 + term1 }

/-- Embeds `OnlineStats::combine(const OnlineStats&)`, MonteCarloSimulator.cpp
lines 29-44 (Chan-style pairwise merge of count/M1/M2/M3/M4).  The divisors
`(combined_count * combined_count)` on lines 39 and 42 and
`(combined_count * combined_count * combined_count)` on line 41, and the
coefficients `(count*count - count*other.count + other.count*other.count)`
(line 41) and `count * count` / `other.count * other.count` (line 42), are
pure `long long` products in the source: they wrap on 64-bit overflow — the
cube already at combined counts of `2^21` — so each is wrapped with `toInt64`
before its conversion to `double`.  Two's-complement wraparound is a ring
homomorphism modulo `2^64`, so a left-associated chain of wrapping `long long`
operations equals one `toInt64` of the exact value; the cubed divisor keeps
the staged `(cc*cc)*cc` shape of the source and the three-term `M4`
coefficient is written as a single wrap.  Every other product in the source
has a `double` operand and is exact, and `combined_count` itself (a
`long long` sum of two counts each below `2^63`) is exact for reachable
counts, as is the difference `(count - other.count)` on line 39. -/
def OnlineStats.combine (s other : OnlineStats) : OnlineStats :=
  if other.count = 0 then s
  else if s.count = 0 then other
  else
    let combined_count : ℤ := (s.count : ℤ) + (other.count : ℤ)
    let na : ℚ := (s.count : ℕ)
    let nb : ℚ := (other.count : ℕ)
    let cc : ℚ := (combined_count : ℚ)
    let cc2 : ℤ := toInt64 (combined_count * combined_count)
    let cc3 : ℤ := toInt64 (cc2 * combined_count)
    let m4coef : ℤ := toInt64 ((s.count : ℤ) * (s.count : ℤ)
        - (s.count : ℤ) * (other.count : ℤ) + (other.count : ℤ) * (other.count : ℤ))
    let sq_a : ℤ := toInt64 ((s.count : ℤ) * (s.count : ℤ))
    let sq_b : ℤ := toInt64 ((other.count : ℤ) * (other.count : ℤ))
    let delta : ℚ := other.M1 - s.M1
    let delta2 : ℚ := delta * delta
    let delta3 : ℚ := delta * delta2
    let delta4 : ℚ := delta2 * delta2
    { count := s.count + other.count
      M1 := (na * s.M1 + nb * other.M1) / cc
      M2 := s.M2 + other.M2 + delta2 * na * nb / cc
      M3 := s.M3 + other.M3
              + delta3 * na * nb * (((s.count : ℤ) - (other.count : ℤ) : ℤ) : ℚ)
                  / (cc2 : ℚ)
              + 3 * delta * (na * other.M2 - nb * s.M2) / cc
      M4 := s.M4 + other.M4
              + delta4 * na * nb * ((m4coef : ℤ) : ℚ) / ((cc3 : ℤ) : ℚ)
              + 6 * delta2 * (((sq_a : ℤ) : ℚ) * other.M2 + ((sq_b : ℤ) : ℚ) * s.M2)
                  / ((cc2 : ℤ) : ℚ)
              + 4 * delta * (na * other.M3 - nb * s.M3) / cc }

/-- Replaying a sequence of observations through `update` on a fresh
accumulator — the reference semantics for `combine`. -/
def OnlineStats.replay (l : List ℚ) : OnlineStats :=
  l.foldl OnlineStats.update OnlineStats.init

/-- Sum of `k`-th powers of a sample, the raw power sums `p_k`. -/
def powSum (l : List ℚ) (k : ℕ) : ℚ := (l.map (fun x => x ^ k)).sum

/-- Closed form of the accumulator state after observing the sample `l`:
`M1` is the sample mean and `M2`–`M4` are the 2nd–4th central moment
sums, written in terms of the raw power sums (with Lean's `x / 0 = 0`
convention this is `OnlineStats.init` on the empty sample). -/
def momentStats (l : List ℚ) : OnlineStats :=
  let n : ℚ := l.length
  let p1 := powSum l 1
  let p2 := powSum l 2
  let p3 := powSum l 3
  let p4 := powSum l 4
  { count := l.length
    M1 := p1 / n
    M2 := p2 - p1 ^ 2 / n
    M3 := p3 - 3 * p1 * p2 / n + 2 * p1 ^ 3 / n ^ 2
    M4 := p4 - 4 * p1 * p3 / n + 6 * p1 ^ 2 * p2 / n ^ 2 - 3 * p1 ^ 4 / n ^ 3 }

theorem powSum_append (l₁ l₂ : List ℚ) (k : ℕ) :
    powSum (l₁ ++ l₂) k = powSum l₁ k + powSum l₂ k := by
  simp [powSum]

theorem momentStats_nil : momentStats [] = OnlineStats.init := by
  simp [momentStats, OnlineStats.init, powSum]

theorem combine_of_counts_ne_zero (s t : OnlineStats)
    (hs : s.count ≠ 0) (ht : t.count ≠ 0) :
    s.combine t =
      { count := s.count + t.count
        M1 := ((s.count : ℚ) * s.M1 + (t.count : ℚ) * t.M1)
                / (((s.count : ℤ) + (t.count : ℤ) : ℤ) : ℚ)
        M2 := s.M2 + t.M2 + (t.M1 - s.M1) * (t.M1 - s.M1) * s.count * t.count
                / (((s.count : ℤ) + (t.count : ℤ) : ℤ) : ℚ)
        M3 := s.M3 + t.M3
                + (t.M1 - s.M1) * ((t.M1 - s.M1) * (t.M1 - s.M1)) * s.count
                    * t.count * (((s.count : ℤ) - (t.count : ℤ) : ℤ) : ℚ)
                    / ((toInt64 (((s.count : ℤ) + (t.count : ℤ))
                        * ((s.count : ℤ) + (t.count : ℤ))) : ℤ) : ℚ)
                + 3 * (t.M1 - s.M1) * ((s.count : ℚ) * t.M2 - (t.count : ℚ) * s.M2)
                    / (((s.count : ℤ) + (t.count : ℤ) : ℤ) : ℚ)
        M4 := s.M4 + t.M4
                + ((t.M1 - s.M1) * (t.M1 - s.M1)) * ((t.M1 - s.M1) * (t.M1 - s.M1))
                    * s.count * t.count
                    * ((toInt64 ((s.count : ℤ) * (s.count : ℤ)
                        - (s.count : ℤ) * (t.count : ℤ)
                        + (t.count : ℤ) * (t.count : ℤ)) : ℤ) : ℚ)
                    / ((toInt64 (toInt64 (((s.count : ℤ) + (t.count : ℤ))
                        * ((s.count : ℤ) + (t.count : ℤ)))
                        * ((s.count : ℤ) + (t.count : ℤ))) : ℤ) : ℚ)
                + 6 * ((t.M1 - s.M1) * (t.M1 - s.M1))
                    * (((toInt64 ((s.count : ℤ) * (s.count : ℤ)) : ℤ) : ℚ) * t.M2
                        + ((toInt64 ((t.count : ℤ) * (t.count : ℤ)) : ℤ) : ℚ) * s.M2)
                    / ((toInt64 (((s.count : ℤ) + (t.count : ℤ))
                        * ((s.count : ℤ) + (t.count : ℤ))) : ℤ) : ℚ)
                + 4 * (t.M1 - s.M1) * ((s.count : ℚ) * t.M3 - (t.count : ℚ) * s.M3)
                    / (((s.count : ℤ) + (t.count : ℤ) : ℤ) : ℚ) } := by
  simp [OnlineStats.combine, hs, ht]

theorem update_momentStats (l : List ℚ) (v : ℚ) (hl : l.length < 2 ^ 31) :
    (momentStats l).update v = momentStats (l ++ [v]) := by
  have hL : (l.length : ℤ) < 2 ^ 31 := by exact_mod_cast hl
  have hL0 : (0 : ℤ) ≤ (l.length : ℤ) := Int.natCast_nonneg _
  have hc : (l.length : ℤ) + 1 ≤ 2 ^ 31 := by omega
  have hc0 : (0 : ℤ) ≤ (l.length : ℤ) + 1 := by omega
  have hP : ((l.length : ℤ) + 1) * ((l.length : ℤ) + 1) ≤ 2 ^ 31 * 2 ^ 31 :=
    mul_le_mul hc hc hc0 (by norm_num)
  have hw : toInt64 (((l.length : ℤ) + 1) * ((l.length : ℤ) + 1)
        - 3 * ((l.length : ℤ) + 1) + 3)
      = ((l.length : ℤ) + 1) * ((l.length : ℤ) + 1)
        - 3 * ((l.length : ℤ) + 1) + 3 := by
    apply toInt64_eq_self
    · nlinarith [mul_self_nonneg ((l.length : ℤ) + 1)]
    · nlinarith [hP]
  rcases eq_or_ne l [] with rfl | hne
  · simp only [momentStats, OnlineStats.update, powSum, List.nil_append,
      List.map, List.sum_cons, List.sum_nil, List.length_nil, List.length_cons,
      OnlineStats.mk.injEq]
    norm_num [toInt64]
    exact ⟨by ring, by ring⟩
  · have hn' : ((l.length : ℚ)) ≠ 0 := by
      exact_mod_cast fun h => hne (List.length_eq_zero.mp (by exact_mod_cast h))
    have hn1 : ((l.length : ℚ) + 1) ≠ 0 := by positivity
    simp only [momentStats, OnlineStats.update, powSum_append, List.length_append,
      List.length_cons, List.length_nil, Nat.cast_add, Nat.cast_one,
      OnlineStats.mk.injEq, hw]
    refine ⟨trivial, ?_, ?_, ?_, ?_⟩ <;>
    · simp only [powSum, List.map, List.sum_cons, List.sum_nil]
      push_cast
      field_simp
      try ring

set_option maxHeartbeats 2000000 in
/-- Shows the merge formula itself is the exact Chan merge: whenever the
combined count stays below `2^21` none of the wrapped `long long` products
of `combine` overflows, and combining the accumulators of two samples gives
exactly the accumulator of the concatenated sample. -/
theorem combine_momentStats_of_no_overflow (l₁ l₂ : List ℚ)
    (hlen : l₁.length + l₂.length < 2 ^ 21) :
    (momentStats l₁).combine (momentStats l₂) = momentStats (l₁ ++ l₂) := by
  rcases eq_or_ne l₂ [] with rfl | h₂
  · simp [OnlineStats.combine, momentStats]
  rcases eq_or_ne l₁ [] with rfl | h₁
  · have hB0 : l₂.length ≠ 0 := fun h => h₂ (List.length_eq_zero.mp h)
    rw [momentStats_nil, List.nil_append]
    simp [OnlineStats.combine, OnlineStats.init, momentStats, hB0]
  · have hA0 : l₁.length ≠ 0 := fun h => h₁ (List.length_eq_zero.mp h)
    have hB0 : l₂.length ≠ 0 := fun h => h₂ (List.length_eq_zero.mp h)
    have hA' : ((l₁.length : ℚ)) ≠ 0 := by exact_mod_cast hA0
    have hB' : ((l₂.length : ℚ)) ≠ 0 := by exact_mod_cast hB0
    have hC' : ((l₁.length : ℚ) + (l₂.length : ℚ)) ≠ 0 := by
      have h1 : (0 : ℚ) < (l₁.length : ℚ) :=
        lt_of_le_of_ne (by positivity) (Ne.symm hA')
      have h2 : (0 : ℚ) ≤ (l₂.length : ℚ) := by positivity
      positivity
    have hA1 : (1 : ℤ) ≤ (l₁.length : ℤ) := by exact_mod_cast Nat.one_le_iff_ne_zero.mpr hA0
    have hB1 : (1 : ℤ) ≤ (l₂.length : ℤ) := by exact_mod_cast Nat.one_le_iff_ne_zero.mpr hB0
    have hABlt : (l₁.length : ℤ) + (l₂.length : ℤ) < 2 ^ 21 := by exact_mod_cast hlen
    have hub : (l₁.length : ℤ) + (l₂.length : ℤ) ≤ 2 ^ 21 - 1 := by omega
    have hpos : (0 : ℤ) ≤ (l₁.length : ℤ) + (l₂.length : ℤ) := by omega
    have hsq_ub : ((l₁.length : ℤ) + (l₂.length : ℤ)) * ((l₁.length : ℤ) + (l₂.length : ℤ))
        ≤ (2 ^ 21 - 1) * (2 ^ 21 - 1) :=
      mul_le_mul hub hub hpos (by norm_num)
    have hsq_lb : (0 : ℤ)
        ≤ ((l₁.length : ℤ) + (l₂.length : ℤ)) * ((l₁.length : ℤ) + (l₂.length : ℤ)) :=
      mul_nonneg hpos hpos
    have hw_cc2 : toInt64 (((l₁.length : ℤ) + (l₂.length : ℤ))
          * ((l₁.length : ℤ) + (l₂.length : ℤ)))
        = ((l₁.length : ℤ) + (l₂.length : ℤ)) * ((l₁.length : ℤ) + (l₂.length : ℤ)) := by
      apply toInt64_eq_self <;> nlinarith [hsq_ub, hsq_lb]
    have hcube_ub : (((l₁.length : ℤ) + (l₂.length : ℤ))
          * ((l₁.length : ℤ) + (l₂.length : ℤ)))
          * ((l₁.length : ℤ) + (l₂.length : ℤ))
        ≤ ((2 ^ 21 - 1) * (2 ^ 21 - 1)) * (2 ^ 21 - 1) :=
      mul_le_mul hsq_ub hub hpos (by norm_num)
    have hcube_lb : (0 : ℤ)
        ≤ (((l₁.length : ℤ) + (l₂.length : ℤ)) * ((l₁.length : ℤ) + (l₂.length : ℤ)))
          * ((l₁.length : ℤ) + (l₂.length : ℤ)) :=
      mul_nonneg hsq_lb hpos
    have hw_cc3 : toInt64 ((((l₁.length : ℤ) + (l₂.length : ℤ))
          * ((l₁.length : ℤ) + (l₂.length : ℤ)))
          * ((l₁.length : ℤ) + (l₂.length : ℤ)))
        = (((l₁.length : ℤ) + (l₂.length : ℤ)) * ((l₁.length : ℤ) + (l₂.length : ℤ)))
          * ((l₁.length : ℤ) + (l₂.length : ℤ)) := by
      apply toInt64_eq_self <;> nlinarith [hcube_ub, hcube_lb]
    have hw_m4 : toInt64 ((l₁.length : ℤ) * (l₁.length : ℤ)
          - (l₁.length : ℤ) * (l₂.length : ℤ) + (l₂.length : ℤ) * (l₂.length : ℤ))
        = (l₁.length : ℤ) * (l₁.length : ℤ)
          - (l₁.length : ℤ) * (l₂.length : ℤ) + (l₂.length : ℤ) * (l₂.length : ℤ) := by
      apply toInt64_eq_self
      · nlinarith [mul_self_nonneg ((l₁.length : ℤ) - (l₂.length : ℤ)),
          mul_self_nonneg (l₁.length : ℤ), mul_self_nonneg (l₂.length : ℤ)]
      · nlinarith [hsq_ub, mul_pos (lt_of_lt_of_le zero_lt_one hA1)
          (lt_of_lt_of_le zero_lt_one hB1)]
    have hw_sqa : toInt64 ((l₁.length : ℤ) * (l₁.length : ℤ))
        = (l₁.length : ℤ) * (l₁.length : ℤ) := by
      apply toInt64_eq_self
      · nlinarith [mul_self_nonneg (l₁.length : ℤ)]
      · nlinarith [hsq_ub, mul_pos (lt_of_lt_of_le zero_lt_one hA1)
          (lt_of_lt_of_le zero_lt_one hB1), mul_self_nonneg (l₂.length : ℤ)]
    have hw_sqb : toInt64 ((l₂.length : ℤ) * (l₂.length : ℤ))
        = (l₂.length : ℤ) * (l₂.length : ℤ) := by
      apply toInt64_eq_self
      · nlinarith [mul_self_nonneg (l₂.length : ℤ)]
      · nlinarith [hsq_ub, mul_pos (lt_of_lt_of_le zero_lt_one hA1)
          (lt_of_lt_of_le zero_lt_one hB1), mul_self_nonneg (l₁.length : ℤ)]
    rw [combine_of_counts_ne_zero _ _
      (by simpa [momentStats] using hA0) (by simpa [momentStats] using hB0)]
    simp only [momentStats, powSum_append, List.length_append, Nat.cast_add,
      hw_cc2, hw_cc3, hw_m4, hw_sqa, hw_sqb, OnlineStats.mk.injEq]
    refine ⟨trivial, ?_, ?_, ?_, ?_⟩ <;>
    · push_cast
      field_simp
      try ring

theorem replay_eq_momentStats (l : List ℚ) (hl : l.length < 2 ^ 31) :
    OnlineStats.replay l = momentStats l := by
  induction l using List.reverseRecOn with
  | nil => simpa [OnlineStats.replay] using momentStats_nil.symm
  | append_singleton l v ih =>
      have hl' : l.length < 2 ^ 31 := by
        rw [List.length_append, List.length_cons, List.length_nil] at hl
        omega
      have h : OnlineStats.replay (l ++ [v]) = (OnlineStats.replay l).update v := by
        simp [OnlineStats.replay]
      rw [h, ih hl', update_momentStats _ _ hl']

theorem powSum_replicate (n : ℕ) (c : ℚ) (k : ℕ) :
    powSum (List.replicate n c) k = n * c ^ k := by
  simp [powSum, List.map_replicate, List.sum_replicate, nsmul_eq_mul]

/-- Claim C3 (code bug): the source computes the `M4` merge divisor
`combined_count * combined_count * combined_count` in `long long` arithmetic
(MonteCarloSimulator.cpp line 41), which overflows 64-bit arithmetic as soon
as the combined count reaches `2^21 = 2097152` — far inside the tool's
documented 100M+ trial workloads — so `combine` does not reproduce the
replayed moments there, within floating-point tolerance or otherwise.  At the
failing input below, the accumulator of `2^20` observations of `0.0` combined
with the accumulator of `2^20` observations of `1.0` (combined count exactly
`2^21`), the wrapped divisor is `-2^63` instead of `2^63`: `combine` returns
`M4 = -131072` where replaying the same `2^21` updates returns
`M4 = +131072`, a sign flip rather than a rounding error.  The merge formula
itself is the correct exact Chan merge whenever no intermediate product
overflows (`combine_momentStats_of_no_overflow`), so the claimed property is
the evident intent and the missing conversion to `double` before the
multiplications is the slip. -/
theorem combine_M4_overflow_divergence :
    (OnlineStats.combine (OnlineStats.replay (List.replicate (2 ^ 20) 0))
        (OnlineStats.replay (List.replicate (2 ^ 20) 1))).M4 = -131072 ∧
    (OnlineStats.replay
        (List.replicate (2 ^ 20) (0 : ℚ) ++ List.replicate (2 ^ 20) 1)).M4
      = 131072 := by
  have hz : OnlineStats.replay (List.replicate (2 ^ 20) (0 : ℚ))
      = ⟨2 ^ 20, 0, 0, 0, 0⟩ := by
    rw [replay_eq_momentStats _ (by simp only [List.length_replicate]; norm_num)]
    simp only [momentStats, powSum_replicate, List.length_replicate,
      OnlineStats.mk.injEq]
    norm_num
  have ho : OnlineStats.replay (List.replicate (2 ^ 20) (1 : ℚ))
      = ⟨2 ^ 20, 1, 0, 0, 0⟩ := by
    rw [replay_eq_momentStats _ (by simp only [List.length_replicate]; norm_num)]
    simp only [momentStats, powSum_replicate, List.length_replicate,
      OnlineStats.mk.injEq]
    norm_num
  have hc : (OnlineStats.combine (⟨2 ^ 20, 0, 0, 0, 0⟩ : OnlineStats)
      ⟨2 ^ 20, 1, 0, 0, 0⟩).M4 = -131072 := by
    simp only [OnlineStats.combine, toInt64]
    norm_num
  have hr : (OnlineStats.replay
      (List.replicate (2 ^ 20) (0 : ℚ) ++ List.replicate (2 ^ 20) 1)).M4
      = 131072 := by
    rw [replay_eq_momentStats _
      (by simp only [List.length_append, List.length_replicate]; norm_num)]
    simp only [momentStats, powSum_append, powSum_replicate, List.length_append,
      List.length_replicate]
    norm_num
  exact ⟨by rw [hz, ho]; exact hc, hr⟩

/-! ### Shared game-round types (SS03Game.h / DeepDive.h / GameModule.h) -/

inductive SimulationMode where
  | FULL_GAME
  | FG_ONLY
  | BG_ONLY
deriving DecidableEq

/-- Embeds `Game::GameResult` (identical field layout in both game modules).
`double` scores carry integral values in both variants, so they are
modelled as `ℤ`. -/
structure GameResult where
  bg_score : ℤ
  fg_score : ℤ
  fg_run_length : ℤ
  fg_was_triggered : Bool
  fg_nonzero_picks : ℤ
  max_bg_multiplier : ℤ
  max_fg_multiplier : ℤ
  bg_levels : ℤ
  fg_levels : List ℤ
deriving DecidableEq

/-- Abstraction of the per-round `std::mt19937` stream: position `n`
holds the raw value of the `n`-th distribution call of the round.
`pick` feeds `uniform_int_distribution` (reduced modulo the pool size
at the call site) and `chance` feeds `uniform_real_distribution(0,1)`. -/
structure RandomStream where
  pick : ℕ → ℕ
  chance : ℕ → ℚ

/-- One `uniform_int_distribution(0, items.size()-1)` draw at stream
position `n`, returning the selected pool element. -/
def drawAt {α : Type} [Inhabited α] (items : List α) (rs : RandomStream) (n : ℕ) : α :=
  items.getD (rs.pick n % items.length) default

/-- The `k` consecutive pool draws starting at stream position `start`, in
the order the C++ loop performs them (`push_back` order). -/
def drawList {α : Type} [Inhabited α] (items : List α) (rs : RandomStream)
    (start k : ℕ) : List α :=
  (List.range k).map (fun i => drawAt items rs (start + i))

theorem drawList_length {α : Type} [Inhabited α] (items : List α)
    (rs : RandomStream) (start k : ℕ) : (drawList items rs start k).length = k := by
  simp [drawList]

/-! ### SS03Game (SS03Game.h / SS03Game.cpp) — the trigger-count variant -/

namespace SS03

/-- Embeds `Game::BG_Item` of SS03Game.h: `{index, value, trigger_num, levels}`. -/
structure BG_Item where
  index : ℤ
  value : ℤ
  trigger_num : ℤ
  levels : ℤ
deriving DecidableEq, Inhabited

/-- Embeds `Game::FG_Item` of SS03Game.h: `{index, value, retrigger_num, levels}`. -/
structure FG_Item where
  index : ℤ
  value : ℤ
  retrigger_num : ℤ
  levels : ℤ
deriving DecidableEq, Inhabited

/-- Embeds `Game::GameData` of SS03Game.h. -/
structure GameData where
  bg_items : List BG_Item
  fg_items : List FG_Item

/-- The `MAX_QUEUE_SIZE` constant of SS03Game.cpp (line 21). -/
def MAX_QUEUE_SIZE : ℕ := 2000

/-- The level→multiplier map for BG items, SS03Game.cpp lines 297-308
and 327-338: `{≤0→1 (safety), 1→1, 2→2, 3→3, ≥4→5}`. -/
def bgMultiplier (levels : ℤ) : ℤ :=
  if levels ≤ 1 then 1
  else if levels = 2 then 2
  else if levels = 3 then 3
  else 5

/-- The level→multiplier map for FG items, SS03Game.cpp lines 380-391:
`{≤0→2 (safety), 1→2, 2→4, 3→6, ≥4→10}`. -/
def fgMultiplier (levels : ℤ) : ℤ :=
  if levels ≤ 1 then 2
  else if levels = 2 then 4
  else if levels = 3 then 6
  else 10

/-- The mutable state of the FG `while` loop of
`Game::simulateGameRound` (SS03Game.cpp lines 364-412).  The queue is
LIFO; the list head models `fg_processing_queue.back()`.  `pos` is the
next unconsumed random-stream position. -/
structure FGState where
  queue : List FG_Item
  pos : ℕ
  fg_score : ℤ
  fg_run_length : ℤ
  fg_nonzero_picks : ℤ
  max_fg_multiplier : ℤ
  fg_levels : List ℤ
deriving DecidableEq

/-- The loop body applied to the popped item `it` (SS03Game.cpp lines
370-404): count the pick, record the level, track the level-derived
multiplier maximum, add the item value, and count nonzero picks. -/
def processItem (it : FG_Item) (rest : List FG_Item) (s : FGState) : FGState :=
  { queue := rest
    pos := s.pos
    fg_run_length := s.fg_run_length + 1
    fg_levels := s.fg_levels ++ [it.levels]
    max_fg_multiplier :=
      if fgMultiplier it.levels > s.max_fg_multiplier then fgMultiplier it.levels
      else s.max_fg_multiplier
    fg_score := s.fg_score + it.value
    fg_nonzero_picks := s.fg_nonzero_picks + (if it.value ≠ 0 then 1 else 0) }

/-- The FG `while` loop of SS03Game.cpp lines 364-412, with explicit
fuel.  The safety check at the top of each iteration (`size() >
MAX_QUEUE_SIZE`, line 366) executes `break`: the loop ends with the
remaining queue untouched.  A retriggering item pushes
`retrigger_num` fresh draws (lines 407-411); the pushes are never
capped in this variant. -/
def fgLoop (fg_items : List FG_Item) (rs : RandomStream) :
    ℕ → FGState → Option FGState
  | 0, _ => none
  | fuel + 1, s =>
    match s.queue with
    | [] => some s
    | it :: rest =>
      if (it :: rest).length > MAX_QUEUE_SIZE then some s
      else
        let s1 := processItem it rest { s with queue := it :: rest }
        let s2 :=
          if it.retrigger_num > 0 then
            { s1 with
              queue := (drawList fg_items rs s1.pos it.retrigger_num.toNat).reverse
                          ++ s1.queue
              pos := s1.pos + it.retrigger_num.toNat }
          else s1
        fgLoop fg_items rs fuel s2

/-- The all-zero freshly initialised `GameResult` (SS03Game.cpp line
285): `{0.0, 0.0, 0, false, 0, 1, 1, 0, {}}`. -/
def result0 : GameResult := ⟨0, 0, 0, false, 0, 1, 1, 0, []⟩

/-- Step 2 of `Game::simulateGameRound` (SS03Game.cpp lines 349-413):
run the FG sequence if `initial_triggers > 0`, starting the random
stream at position `pos`. -/
def finishRound (gd : GameData) (rs : RandomStream) (fuel : ℕ)
    (base : GameResult) (initial_triggers : ℤ) (pos : ℕ) : Option GameResult :=
  if initial_triggers > 0 then
    let base := { base with fg_was_triggered := true }
    if gd.fg_items = [] then some base
    else
      let seeded := (drawList gd.fg_items rs pos initial_triggers.toNat).reverse
      let s0 : FGState :=
        ⟨seeded, pos + initial_triggers.toNat, 0, 0, 0, base.max_fg_multiplier, []⟩
      match fgLoop gd.fg_items rs fuel s0 with
      | none => none
      | some s =>
          some { base with
                  fg_score := s.fg_score
                  fg_run_length := s.fg_run_length
                  fg_nonzero_picks := s.fg_nonzero_picks
                  max_fg_multiplier := s.max_fg_multiplier
                  fg_levels := s.fg_levels }
  else some base

/-- Embeds `Game::simulateGameRound` of SS03Game.cpp (lines 280-416), on an
initialised `GameData`.  `none` means the FG loop was still running
when the fuel ran out. -/
def simulateGameRound (gd : GameData) (rs : RandomStream) (mode : SimulationMode)
    (second_chance_prob : ℚ) (fuel : ℕ) : Option GameResult :=
  match mode with
  | .BG_ONLY =>
      if gd.bg_items = [] then some result0
      else
        let chosen := drawAt gd.bg_items rs 0
        some { result0 with
                bg_score := chosen.value
                bg_levels := chosen.levels
                max_bg_multiplier := bgMultiplier chosen.levels }
  | .FG_ONLY =>
      finishRound gd rs fuel result0 10 0
  | .FULL_GAME =>
      if gd.bg_items = [] then some result0
      else
        let chosen := drawAt gd.bg_items rs 0
        let base := { result0 with
                        bg_score := chosen.value
                        bg_levels := chosen.levels
                        max_bg_multiplier := bgMultiplier chosen.levels }
        if chosen.trigger_num = 0 ∧ second_chance_prob > 0 then
          if rs.chance 1 < second_chance_prob then finishRound gd rs fuel base 10 2
          else finishRound gd rs fuel base 0 2
        else finishRound gd rs fuel base chosen.trigger_num 1

end SS03

/-! ### DeepDive (DeepDive.h / DeepDive.cpp) — the pool-multiplier variant -/

namespace DeepDive

/-- Embeds `Game::BG_Item` of DeepDive.h: `{index, value, flag, levels}`. -/
structure BG_Item where
  index : ℤ
  value : ℤ
  flag : Bool
  levels : ℤ
deriving DecidableEq, Inhabited

/-- Embeds `Game::FG_Item` of DeepDive.h: `{index, value, flag, count, levels}`. -/
structure FG_Item where
  index : ℤ
  value : ℤ
  flag : Bool
  count : ℤ
  levels : ℤ
deriving DecidableEq, Inhabited

/-- Embeds `Game::DeepDiveData`: item pools, the weighted multiplier pools and
the `unordered_map` from item index to pool id (modelled as an
association list with unique keys). -/
structure DeepDiveData where
  bg_items : List BG_Item
  fg_items : List FG_Item
  multiplier_pools : List (List ℤ)
  item_to_pool_map : List (ℤ × ℤ)

/-- The `MAX_QUEUE_SIZE` constant of DeepDive.cpp (line 26). -/
def MAX_QUEUE_SIZE : ℕ := 1000

/-- Multiplier resolution for one FG pick, DeepDive.cpp lines 326-344:
`count == 0` means multiplier 1; otherwise the multiplier starts at 0
and accumulates `count` uniform draws from the mapped pool — it stays
0 whenever the item has no pool mapping, the pool id is out of range,
or the pool is empty.  Returns the multiplier and the advanced stream
position. -/
def resolveMultiplier (gd : DeepDiveData) (rs : RandomStream) (it : FG_Item)
    (pos : ℕ) : ℤ × ℕ :=
  if it.count = 0 then (1, pos)
  else
    match gd.item_to_pool_map.lookup it.index with
    | none => (0, pos)
    | some pool_id =>
        if 0 ≤ pool_id ∧ pool_id.toNat < gd.multiplier_pools.length then
          let pool := gd.multiplier_pools.getD pool_id.toNat []
          if pool = [] then (0, pos)
          else
            (((List.range it.count.toNat).map
                (fun i => pool.getD (rs.pick (pos + i) % pool.length) 0)).sum,
              pos + it.count.toNat)
        else (0, pos)

/-- The mutable state of the FG `while` loop of DeepDive.cpp lines
320-371.  `warned`/`warnings` model the one-per-round
`cap_warning_logged_this_run` flag and the number of warning messages
actually printed. -/
structure FGState where
  queue : List FG_Item
  pos : ℕ
  fg_score : ℤ
  fg_items_processed : ℤ
  fg_nonzero_picks : ℤ
  max_fg_multiplier : ℤ
  fg_levels : List ℤ
  warned : Bool
  warnings : ℕ
deriving DecidableEq

/-- The loop body applied to the popped item `it` (DeepDive.cpp lines
321-353): count the pick, record the level, resolve the pool
multiplier, add `value * multiplier`, track the multiplier maximum
(`>=` comparison, line 347) and the nonzero contributions. -/
def processItem (gd : DeepDiveData) (rs : RandomStream) (it : FG_Item)
    (rest : List FG_Item) (s : FGState) : FGState :=
  let m := resolveMultiplier gd rs it s.pos
  { queue := rest
    pos := m.2
    fg_items_processed := s.fg_items_processed + 1
    fg_levels := s.fg_levels ++ [it.levels]
    max_fg_multiplier :=
      if m.1 ≥ s.max_fg_multiplier then m.1 else s.max_fg_multiplier
    fg_score := s.fg_score + it.value * m.1
    fg_nonzero_picks := s.fg_nonzero_picks + (if it.value * m.1 ≠ 0 then 1 else 0)
    warned := s.warned
    warnings := s.warnings }

/-- The FG `while` loop of DeepDive.cpp lines 320-371, with explicit
fuel.  A continuing item (`flag`) pushes 10 fresh draws unless the
queue left after the pop already exceeds `MAX_QUEUE_SIZE` (line 356),
in which case the push is dropped and a warning is printed if none was
printed yet this round (lines 358-365). -/
def fgLoop (gd : DeepDiveData) (rs : RandomStream) :
    ℕ → FGState → Option FGState
  | 0, _ => none
  | fuel + 1, s =>
    match s.queue with
    | [] => some s
    | it :: rest =>
      let s1 := processItem gd rs it rest { s with queue := it :: rest }
      let s2 :=
        if it.flag then
          if rest.length > MAX_QUEUE_SIZE then
            { s1 with
              warned := true
              warnings := s1.warnings + (if s1.warned then 0 else 1) }
          else
            { s1 with
              queue := (drawList gd.fg_items rs s1.pos 10).reverse ++ s1.queue
              pos := s1.pos + 10 }
        else s1
      fgLoop gd rs fuel s2

/-- A `GameResult` with no FG activity, as built by the early returns
of DeepDive.cpp (lines 251, 259, 298): only the BG fields are filled. -/
def bgOnlyResult (bg_score : ℤ) (triggered : Bool) (bg_levels : ℤ) : GameResult :=
  ⟨bg_score, 0, 0, triggered, 0, 1, 1, bg_levels, []⟩

/-- The FG processing stage of DeepDive.cpp lines 301-372: seed the
queue with 10 draws starting at stream position `pos`, run the loop,
and package the final state (`max_bg_multiplier` is fixed at 1 in this
variant). -/
def runFG (gd : DeepDiveData) (rs : RandomStream) (fuel : ℕ)
    (bg_score bg_levels : ℤ) (pos : ℕ) : Option GameResult :=
  if gd.fg_items = [] then some (bgOnlyResult bg_score true bg_levels)
  else
    let seeded := (drawList gd.fg_items rs pos 10).reverse
    let s0 : FGState := ⟨seeded, pos + 10, 0, 0, 0, 1, [], false, 0⟩
    match fgLoop gd rs fuel s0 with
    | none => none
    | some s =>
        some ⟨bg_score, s.fg_score, s.fg_items_processed, true,
              s.fg_nonzero_picks, 1, s.max_fg_multiplier, bg_levels, s.fg_levels⟩

/-- Embeds `Game::simulateGameRound` of DeepDive.cpp (lines 246-373), on an
initialised `DeepDiveData`.  An empty BG pool returns the all-zero
result before the mode dispatch (line 250).  `none` means the FG loop
was still running when the fuel ran out. -/
def simulateGameRound (gd : DeepDiveData) (rs : RandomStream)
    (mode : SimulationMode) (second_chance_prob : ℚ) (fuel : ℕ) :
    Option GameResult :=
  if gd.bg_items = [] then some (bgOnlyResult 0 false 0)
  else
    match mode with
    | .BG_ONLY =>
        let chosen := drawAt gd.bg_items rs 0
        some (bgOnlyResult chosen.value false chosen.levels)
    | .FG_ONLY =>
        runFG gd rs fuel 0 0 0
    | .FULL_GAME =>
        let chosen := drawAt gd.bg_items rs 0
        if chosen.flag then runFG gd rs fuel chosen.value chosen.levels 1
        else if second_chance_prob > 0 then
          if rs.chance 1 < second_chance_prob then
            runFG gd rs fuel chosen.value chosen.levels 2
          else some (bgOnlyResult chosen.value false chosen.levels)
        else some (bgOnlyResult chosen.value false chosen.levels)

end DeepDive

/-! ### Game-round claims -/

/-- The degenerate stream whose raw draws are all zero; with
single-item pools every concrete mt19937 stream induces exactly these
selections, so rounds driven by it are reachable behaviours. -/
def constStream : RandomStream := ⟨fun _ => 0, fun _ => 0⟩

/-- Claim C10: in the pool-multiplier (DeepDive) variant, an empty
base-item pool makes `simulateGameRound` return the all-zero,
not-triggered result in every simulation mode — including `FG_ONLY`,
where the base pool is otherwise unused — instead of raising an error
or running the feature phase. -/
theorem deepDive_empty_bg_zero_result
    (fg : List DeepDive.FG_Item) (pools : List (List ℤ)) (pmap : List (ℤ × ℤ))
    (rs : RandomStream) (mode : SimulationMode) (p : ℚ) (fuel : ℕ) :
    DeepDive.simulateGameRound ⟨[], fg, pools, pmap⟩ rs mode p fuel =
      some ⟨0, 0, 0, false, 0, 1, 1, 0, []⟩ := by
  simp [DeepDive.simulateGameRound, DeepDive.bgOnlyResult]

theorem ss03_fgLoop_inv (items : List SS03.FG_Item) (rs : RandomStream) :
    ∀ (fuel : ℕ) (s t : SS03.FGState),
      s.fg_run_length = s.fg_levels.length →
      s.fg_nonzero_picks ≤ s.fg_run_length →
      SS03.fgLoop items rs fuel s = some t →
      t.fg_run_length = t.fg_levels.length ∧
        t.fg_nonzero_picks ≤ t.fg_run_length := by
  intro fuel
  induction fuel with
  | zero => intro s t _ _ h; simp [SS03.fgLoop] at h
  | succ fuel ih =>
      intro s t h1 h2 h
      rcases s with ⟨queue, pos, sc, run, nz, mx, lv⟩
      rcases queue with _ | ⟨it, rest⟩
      · simp only [SS03.fgLoop] at h
        cases h
        exact ⟨h1, h2⟩
      · simp only [SS03.fgLoop] at h
        split at h
        · cases h; exact ⟨h1, h2⟩
        · refine ih _ t ?_ ?_ h
          all_goals
            simp only [SS03.processItem] at *
            split <;>
            · simp only []
              push_cast at h1 ⊢
              try omega
              try simp [h1]
              try split <;> omega
  
theorem deepDive_fgLoop_inv (gd : DeepDive.DeepDiveData) (rs : RandomStream) :
    ∀ (fuel : ℕ) (s t : DeepDive.FGState),
      s.fg_items_processed = s.fg_levels.length →
      s.fg_nonzero_picks ≤ s.fg_items_processed →
      DeepDive.fgLoop gd rs fuel s = some t →
      t.fg_items_processed = t.fg_levels.length ∧
        t.fg_nonzero_picks ≤ t.fg_items_processed := by
  intro fuel
  induction fuel with
  | zero => intro s t _ _ h; simp [DeepDive.fgLoop] at h
  | succ fuel ih =>
      intro s t h1 h2 h
      rcases s with ⟨queue, pos, sc, run, nz, mx, lv, w, ws⟩
      rcases queue with _ | ⟨it, rest⟩
      · simp only [DeepDive.fgLoop] at h
        cases h
        exact ⟨h1, h2⟩
      · simp only [DeepDive.fgLoop] at h
        refine ih _ t ?_ ?_ h
        all_goals
          simp only [DeepDive.processItem] at *
          split <;> try split
        all_goals
          simp only []
          push_cast at h1 ⊢
          try omega
          try simp [h1]
          try split <;> omega

/-- Claim C9: every `GameResult` returned by `simulateGameRound`, in
both game variants, all simulation modes and for every pool
configuration, second-chance probability and random stream, satisfies
`fg_run_length = fg_levels.length` (exactly one level entry per
processed feature pick) and `fg_nonzero_picks ≤ fg_run_length`. -/
theorem fg_run_length_matches_levels :
    (∀ (gd : SS03.GameData) (rs : RandomStream) (mode : SimulationMode)
        (p : ℚ) (fuel : ℕ) (r : GameResult),
        SS03.simulateGameRound gd rs mode p fuel = some r →
        r.fg_run_length = r.fg_levels.length ∧
          r.fg_nonzero_picks ≤ r.fg_run_length) ∧
    (∀ (gd : DeepDive.DeepDiveData) (rs : RandomStream) (mode : SimulationMode)
        (p : ℚ) (fuel : ℕ) (r : GameResult),
        DeepDive.simulateGameRound gd rs mode p fuel = some r →
        r.fg_run_length = r.fg_levels.length ∧
          r.fg_nonzero_picks ≤ r.fg_run_length) := by
  constructor
  · intro gd rs mode p fuel r h
    have hfin : ∀ (base : GameResult) (ini : ℤ) (pos : ℕ),
        base.fg_run_length = base.fg_levels.length →
        base.fg_nonzero_picks ≤ base.fg_run_length →
        SS03.finishRound gd rs fuel base ini pos = some r →
        r.fg_run_length = r.fg_levels.length ∧
          r.fg_nonzero_picks ≤ r.fg_run_length := by
      intro base ini pos hb1 hb2 h
      unfold SS03.finishRound at h
      split at h
      · dsimp only at h
        split at h
        · cases h
          exact ⟨by simpa using hb1, by simpa using hb2⟩
        · split at h
          · cases h
          · rename_i s hl
            cases h
            have hs := ss03_fgLoop_inv gd.fg_items rs fuel _ s (by simp) (by simp) hl
            exact ⟨by simpa using hs.1, by simpa using hs.2⟩
      · cases h
        exact ⟨hb1, hb2⟩
    rcases mode with _ | _ | _
    case FULL_GAME =>
      unfold SS03.simulateGameRound at h
      dsimp only at h
      split at h
      · cases h
        exact ⟨by simp [SS03.result0], by simp [SS03.result0]⟩
      · split at h
        · split at h
          · exact hfin _ _ _ (by simp [SS03.result0]) (by simp [SS03.result0]) h
          · exact hfin _ _ _ (by simp [SS03.result0]) (by simp [SS03.result0]) h
        · exact hfin _ _ _ (by simp [SS03.result0]) (by simp [SS03.result0]) h
    case FG_ONLY =>
      unfold SS03.simulateGameRound at h
      dsimp only at h
      exact hfin _ _ _ (by simp [SS03.result0]) (by simp [SS03.result0]) h
    case BG_ONLY =>
      unfold SS03.simulateGameRound at h
      dsimp only at h
      split at h
      · cases h
        exact ⟨by simp [SS03.result0], by simp [SS03.result0]⟩
      · cases h
        exact ⟨by simp [SS03.result0], by simp [SS03.result0]⟩
  · intro gd rs mode p fuel r h
    have hrun : ∀ (bs bl : ℤ) (pos : ℕ),
        DeepDive.runFG gd rs fuel bs bl pos = some r →
        r.fg_run_length = r.fg_levels.length ∧
          r.fg_nonzero_picks ≤ r.fg_run_length := by
      intro bs bl pos h
      unfold DeepDive.runFG at h
      split at h
      · cases h
        exact ⟨by simp [DeepDive.bgOnlyResult], by simp [DeepDive.bgOnlyResult]⟩
      · dsimp only at h
        split at h
        · cases h
        · rename_i s hl
          cases h
          have hs := deepDive_fgLoop_inv gd rs fuel _ s (by simp) (by simp) hl
          exact ⟨by simpa using hs.1, by simpa using hs.2⟩
    unfold DeepDive.simulateGameRound at h
    split at h
    · cases h
      exact ⟨by simp [DeepDive.bgOnlyResult], by simp [DeepDive.bgOnlyResult]⟩
    · rcases mode with _ | _ | _
      case FULL_GAME =>
        dsimp only at h
        split at h
        · exact hrun _ _ _ h
        · split at h
          · split at h
            · exact hrun _ _ _ h
            · cases h
              exact ⟨by simp [DeepDive.bgOnlyResult], by simp [DeepDive.bgOnlyResult]⟩
          · cases h
            exact ⟨by simp [DeepDive.bgOnlyResult], by simp [DeepDive.bgOnlyResult]⟩
      case FG_ONLY =>
        dsimp only at h
        exact hrun _ _ _ h
      case BG_ONLY =>
        dsimp only at h
        cases h
        exact ⟨by simp [DeepDive.bgOnlyResult], by simp [DeepDive.bgOnlyResult]⟩

/-- Witness for `fg_run_length_matches_levels` at a concrete round:
the SS03 sample BG item `{1, 10, 0, 2}` in `BG_ONLY` mode and a
DeepDive `FG_ONLY` round over the single non-continuing feature item
`{204, 25, false, 0, 1}`. -/
theorem fg_run_length_matches_levels_witness :
    ((⟨10, 0, 0, false, 0, 2, 1, 2, []⟩ : GameResult).fg_run_length =
        (⟨10, 0, 0, false, 0, 2, 1, 2, []⟩ : GameResult).fg_levels.length ∧
      (⟨10, 0, 0, false, 0, 2, 1, 2, []⟩ : GameResult).fg_nonzero_picks ≤
        (⟨10, 0, 0, false, 0, 2, 1, 2, []⟩ : GameResult).fg_run_length) ∧
    ((⟨0, 250, 10, true, 10, 1, 1, 0,
          [1, 1, 1, 1, 1, 1, 1, 1, 1, 1]⟩ : GameResult).fg_run_length =
        (⟨0, 250, 10, true, 10, 1, 1, 0,
          [1, 1, 1, 1, 1, 1, 1, 1, 1, 1]⟩ : GameResult).fg_levels.length ∧
      (⟨0, 250, 10, true, 10, 1, 1, 0,
          [1, 1, 1, 1, 1, 1, 1, 1, 1, 1]⟩ : GameResult).fg_nonzero_picks ≤
        (⟨0, 250, 10, true, 10, 1, 1, 0,
          [1, 1, 1, 1, 1, 1, 1, 1, 1, 1]⟩ : GameResult).fg_run_length) :=
  ⟨fg_run_length_matches_levels.1 ⟨[⟨1, 10, 0, 2⟩], []⟩ constStream
      .BG_ONLY 0 1 _ (by decide),
    fg_run_length_matches_levels.2 ⟨[⟨1, 1, false, 1⟩], [⟨204, 25, false, 0, 1⟩], [], []⟩
      constStream .FG_ONLY 0 12 _ (by decide)⟩

/-- The C1 counterexample pool for the trigger-count variant: one BG
item granting 2 initial picks and one FG item that retriggers 2500
further picks. -/
def ss03CapData : SS03.GameData := ⟨[⟨1, 0, 2, 1⟩], [⟨5, 7, 2500, 1⟩]⟩

theorem ss03_fgLoop_break (items : List SS03.FG_Item) (rs : RandomStream)
    (fuel : ℕ) (s : SS03.FGState) (hne : s.queue ≠ [])
    (hlen : s.queue.length > SS03.MAX_QUEUE_SIZE) :
    SS03.fgLoop items rs (fuel + 1) s = some s := by
  rcases s with ⟨queue, pos, sc, run, nz, mx, lv⟩
  rcases queue with _ | ⟨it, rest⟩
  · simp at hne
  · simp only [SS03.fgLoop]
    rw [if_pos (by simpa using hlen)]

theorem ss03_fgLoop_succ_cons (items : List SS03.FG_Item) (rs : RandomStream)
    (fuel : ℕ) (s : SS03.FGState) (it : SS03.FG_Item) (rest : List SS03.FG_Item)
    (hq : s.queue = it :: rest)
    (hlen : ¬ s.queue.length > SS03.MAX_QUEUE_SIZE) :
    SS03.fgLoop items rs (fuel + 1) s =
      SS03.fgLoop items rs fuel
        (if it.retrigger_num > 0 then
          { SS03.processItem it rest s with
              queue := (drawList items rs s.pos it.retrigger_num.toNat).reverse
                          ++ rest
              pos := s.pos + it.retrigger_num.toNat }
        else SS03.processItem it rest s) := by
  rcases s with ⟨queue, pos, sc, run, nz, mx, lv⟩
  simp only at hq
  subst hq
  simp only [SS03.fgLoop]
  rw [if_neg (by simpa using hlen)]
  rfl

/-- Claim C1, counterexample.  In the trigger-count (SS03) variant the
cap does not drop the push and the queued items are not processed
until the queue drains: processing the first of the 2 seeded picks
pushes 2500 draws, and the next iteration's safety check (`size() >
2000`) exits the loop with 2501 items still in the queue, so only 1 of
the 2 items already in the queue is ever processed
(`fg_run_length = 1`), and no warning mechanism exists in this
variant. -/
theorem ss03_cap_discards_queue_counterexample :
    (SS03.fgLoop ss03CapData.fg_items constStream 5
        ⟨[⟨5, 7, 2500, 1⟩, ⟨5, 7, 2500, 1⟩], 3, 0, 0, 0, 1, []⟩).map
      (fun s => (s.queue.length, s.fg_run_length)) = some (2501, 1) ∧
    (SS03.simulateGameRound ss03CapData constStream .FULL_GAME 0 5).map
      (fun r => (r.fg_run_length, r.fg_levels.length)) = some (1, 1) := by
  have hloop : SS03.fgLoop ss03CapData.fg_items constStream 5
      ⟨[⟨5, 7, 2500, 1⟩, ⟨5, 7, 2500, 1⟩], 3, 0, 0, 0, 1, []⟩ =
      some ⟨(drawList ss03CapData.fg_items constStream 3 2500).reverse
              ++ [⟨5, 7, 2500, 1⟩], 3 + 2500, 7, 1, 1, 2, [1]⟩ := by
    rw [show (5 : ℕ) = 4 + 1 from rfl,
      ss03_fgLoop_succ_cons _ _ 4 _ ⟨5, 7, 2500, 1⟩ [⟨5, 7, 2500, 1⟩] rfl
        (by norm_num [SS03.MAX_QUEUE_SIZE])]
    rw [if_pos (by norm_num)]
    rw [show (4 : ℕ) = 3 + 1 from rfl]
    rw [ss03_fgLoop_break _ _ 3 _
      (by simp [SS03.processItem])
      (by simp [SS03.processItem, drawList_length, SS03.MAX_QUEUE_SIZE])]
    simp [SS03.processItem, SS03.fgMultiplier]
  constructor
  · rw [hloop]
    simp [drawList_length]
  · unfold SS03.simulateGameRound
    dsimp only
    rw [if_neg (by simp [ss03CapData])]
    have hch : drawAt ss03CapData.bg_items constStream 0 = ⟨1, 0, 2, 1⟩ := by
      decide
    simp only [hch]
    rw [if_neg (by simp)]
    unfold SS03.finishRound
    rw [if_pos (by norm_num)]
    rw [if_neg (by simp [ss03CapData])]
    dsimp only
    have hseed : (drawList ss03CapData.fg_items constStream 1 (2 : ℤ).toNat).reverse
        = [(⟨5, 7, 2500, 1⟩ : SS03.FG_Item), ⟨5, 7, 2500, 1⟩] := by decide
    rw [hseed]
    rw [show (1 + (2 : ℤ).toNat : ℕ) = 3 from rfl,
      show SS03.result0.max_fg_multiplier = (1 : ℤ) from rfl]
    rw [hloop]
    simp

/-- Claim C1 (amended): the two variants handle the queue cap
differently.  In the trigger-count variant (cap 2000) an iteration
that starts with the queue above the cap terminates the feature phase
immediately, leaving every queued item unprocessed and emitting no
warning.  In the pool-multiplier variant (cap 1000) a continuing item
whose post-pop queue exceeds the cap has its push dropped — the
successor state is exactly the processed state without the 10 new
draws, with the warning flag set and a warning emitted only if none
was emitted yet — and the round then continues processing the
remaining queue; on normal loop exit the queue has drained and at
most one warning was emitted for the round. -/
theorem queue_cap_behavior :
    (∀ (items : List SS03.FG_Item) (rs : RandomStream) (fuel : ℕ)
        (s : SS03.FGState),
        s.queue ≠ [] → s.queue.length > SS03.MAX_QUEUE_SIZE →
        SS03.fgLoop items rs (fuel + 1) s = some s) ∧
    (∀ (gd : DeepDive.DeepDiveData) (rs : RandomStream) (fuel : ℕ)
        (s : DeepDive.FGState) (it : DeepDive.FG_Item)
        (rest : List DeepDive.FG_Item),
        s.queue = it :: rest → it.flag = true →
        rest.length > DeepDive.MAX_QUEUE_SIZE →
        DeepDive.fgLoop gd rs (fuel + 1) s =
          DeepDive.fgLoop gd rs fuel
            { DeepDive.processItem gd rs it rest s with
                warned := true
                warnings := s.warnings + (if s.warned then 0 else 1) }) ∧
    (∀ (gd : DeepDive.DeepDiveData) (rs : RandomStream) (fuel : ℕ)
        (s t : DeepDive.FGState),
        s.warnings ≤ 1 → (s.warned = false → s.warnings = 0) →
        DeepDive.fgLoop gd rs fuel s = some t →
        t.warnings ≤ 1 ∧ t.queue = []) := by
  refine ⟨?_, ?_, ?_⟩
  · intro items rs fuel s hne hlen
    exact ss03_fgLoop_break items rs fuel s hne hlen
  · intro gd rs fuel s it rest hq hf hlen
    rcases s with ⟨queue, pos, sc, run, nz, mx, lv, w, ws⟩
    simp only at hq
    subst hq
    simp only [DeepDive.fgLoop, hf, if_true, if_pos hlen]
    rfl
  · intro gd rs fuel
    induction fuel with
    | zero => intro s t _ _ h; simp [DeepDive.fgLoop] at h
    | succ fuel ih =>
        intro s t hw1 hw2 h
        rcases s with ⟨queue, pos, sc, run, nz, mx, lv, w, ws⟩
        rcases queue with _ | ⟨it, rest⟩
        · simp only [DeepDive.fgLoop] at h
          cases h
          exact ⟨hw1, rfl⟩
        · simp only [DeepDive.fgLoop] at h
          refine ih _ t ?_ ?_ h
          all_goals
            simp only [DeepDive.processItem] at *
            split <;> try split
          all_goals
            simp only []
            try intro hxx
            rcases w with _ | _ <;> simp_all <;> omega

/-- Witness for `queue_cap_behavior`: a 2001-deep queue stops the
SS03 loop unchanged; a continuing DeepDive item facing a 1001-deep
remainder drops its push and records the single warning; a loop that
exits normally ends with a drained queue and at most one warning. -/
theorem queue_cap_behavior_witness :
    (SS03.fgLoop [] constStream 1
        ⟨List.replicate 2001 ⟨0, 0, 0, 0⟩, 0, 0, 0, 0, 1, []⟩ =
      some ⟨List.replicate 2001 ⟨0, 0, 0, 0⟩, 0, 0, 0, 0, 1, []⟩) ∧
    (DeepDive.fgLoop ⟨[], [], [], []⟩ constStream 1
        ⟨⟨0, 0, true, 0, 0⟩ :: List.replicate 1001 ⟨0, 0, true, 0, 0⟩,
          0, 0, 0, 0, 1, [], false, 0⟩ =
      DeepDive.fgLoop ⟨[], [], [], []⟩ constStream 0
        { DeepDive.processItem ⟨[], [], [], []⟩ constStream ⟨0, 0, true, 0, 0⟩
            (List.replicate 1001 ⟨0, 0, true, 0, 0⟩)
            ⟨⟨0, 0, true, 0, 0⟩ :: List.replicate 1001 ⟨0, 0, true, 0, 0⟩,
              0, 0, 0, 0, 1, [], false, 0⟩ with
            warned := true
            warnings := 1 }) ∧
    ((⟨[], 7, 0, 0, 0, 1, [], false, 0⟩ : DeepDive.FGState).warnings ≤ 1 ∧
      (⟨[], 7, 0, 0, 0, 1, [], false, 0⟩ : DeepDive.FGState).queue = []) :=
  ⟨queue_cap_behavior.1 [] constStream 0 _
      (List.length_pos.mp (by rw [List.length_replicate]; norm_num))
      (by rw [List.length_replicate]; norm_num [SS03.MAX_QUEUE_SIZE]),
    queue_cap_behavior.2.1 ⟨[], [], [], []⟩ constStream 0 _ _ _ rfl rfl
      (by rw [List.length_replicate]; norm_num [DeepDive.MAX_QUEUE_SIZE]),
    queue_cap_behavior.2.2 ⟨[], [], [], []⟩ constStream 1
      ⟨[], 7, 0, 0, 0, 1, [], false, 0⟩ ⟨[], 7, 0, 0, 0, 1, [], false, 0⟩
      (by decide) (by decide) (by decide)⟩

/-- The C2 counterexample pool for the trigger-count variant: the BG
item grants 1 initial pick and the single FG item retriggers exactly
1 pick, so every iteration pops one item and pushes one item back. -/
def ss03LoopData : SS03.GameData := ⟨[⟨1, 0, 1, 1⟩], [⟨9, 3, 1, 1⟩]⟩

theorem ss03_retrigger_one_fgLoop_none (rs : RandomStream) :
    ∀ (fuel : ℕ) (s : SS03.FGState), s.queue = [⟨9, 3, 1, 1⟩] →
      SS03.fgLoop ss03LoopData.fg_items rs fuel s = none := by
  intro fuel
  induction fuel with
  | zero => intro s _; rfl
  | succ fuel ih =>
      intro s hq
      rcases s with ⟨queue, pos, sc, run, nz, mx, lv⟩
      simp only at hq
      subst hq
      simp only [SS03.fgLoop, SS03.processItem, ss03LoopData, drawList, drawAt,
        List.length_cons, List.length_nil, SS03.MAX_QUEUE_SIZE]
      rw [if_neg (by omega)]
      rw [if_pos (by decide)]
      exact ih _ (by simp [Nat.mod_one])

/-- Claim C2, counterexample: with the `ss03LoopData` pool the feature
queue stays at size 1 forever — it never drains and never reaches the
cap — so the `while` loop of `simulateGameRound` runs forever for
every random stream (the pools have one item each, so the stream
cannot influence the selections). -/
theorem fg_loop_nonterminating_counterexample :
    ¬ ∃ (rs : RandomStream) (fuel : ℕ) (r : GameResult),
        SS03.simulateGameRound ss03LoopData rs .FULL_GAME 0 fuel = some r := by
  rintro ⟨rs, fuel, r, h⟩
  unfold SS03.simulateGameRound at h
  dsimp only at h
  rw [if_neg (by simp [ss03LoopData])] at h
  have htrig : (drawAt ss03LoopData.bg_items rs 0).trigger_num = 1 := by
    simp [ss03LoopData, drawAt, Nat.mod_one]
  rw [if_neg (by simp [htrig])] at h
  unfold SS03.finishRound at h
  rw [if_pos (by simp [htrig])] at h
  rw [if_neg (by simp [ss03LoopData])] at h
  dsimp only at h
  rw [ss03_retrigger_one_fgLoop_none rs fuel _ (by simp [htrig, ss03LoopData,
    drawList, drawAt, Nat.mod_one])] at h
  cases h

/-- Claim C2 (amended): the feature-phase loop does terminate, for
every random stream and within `queue length` iterations, whenever no
feature item carries a continuation signal (`retrigger_num ≤ 0` in the
trigger-count variant, `flag = false` in the pool-multiplier variant);
with continuation items present, configurations such as
`ss03LoopData` make the loop run forever. -/
theorem fg_loop_terminates_without_continuation :
    (∀ (items : List SS03.FG_Item) (rs : RandomStream) (fuel : ℕ)
        (s : SS03.FGState),
        (∀ it ∈ items, it.retrigger_num ≤ 0) →
        (∀ it ∈ s.queue, it.retrigger_num ≤ 0) →
        s.queue.length < fuel →
        ∃ t, SS03.fgLoop items rs fuel s = some t) ∧
    (∀ (gd : DeepDive.DeepDiveData) (rs : RandomStream) (fuel : ℕ)
        (s : DeepDive.FGState),
        (∀ it ∈ gd.fg_items, it.flag = false) →
        (∀ it ∈ s.queue, it.flag = false) →
        s.queue.length < fuel →
        ∃ t, DeepDive.fgLoop gd rs fuel s = some t ∧ t.queue = []) := by
  constructor
  · intro items rs fuel
    induction fuel with
    | zero => intro s _ _ h; omega
    | succ fuel ih =>
        intro s hitems hq hlen
        rcases s with ⟨queue, pos, sc, run, nz, mx, lv⟩
        rcases queue with _ | ⟨it, rest⟩
        · exact ⟨_, rfl⟩
        · simp only [SS03.fgLoop]
          split
          · exact ⟨_, rfl⟩
          · have hit : it.retrigger_num ≤ 0 := hq it (by simp)
            rw [if_neg (by omega)]
            refine ih _ hitems ?_ ?_
            · intro x hx
              exact hq x (List.mem_cons_of_mem _ hx)
            · simpa using Nat.lt_of_succ_lt_succ (by simpa using hlen)
  · intro gd rs fuel
    induction fuel with
    | zero => intro s _ _ h; omega
    | succ fuel ih =>
        intro s hitems hq hlen
        rcases s with ⟨queue, pos, sc, run, nz, mx, lv, w, ws⟩
        rcases queue with _ | ⟨it, rest⟩
        · exact ⟨_, rfl, rfl⟩
        · simp only [DeepDive.fgLoop]
          have hit : it.flag = false := hq it (by simp)
          rw [if_neg (by simp [hit])]
          refine ih _ hitems ?_ ?_
          · intro x hx
            exact hq x (List.mem_cons_of_mem _ hx)
          · simpa using Nat.lt_of_succ_lt_succ (by simpa using hlen)

/-- Witness for `fg_loop_terminates_without_continuation`: a one-item
non-continuing queue terminates (in both variants) with two units of
fuel. -/
theorem fg_loop_terminates_without_continuation_witness :
    (∃ t, SS03.fgLoop [⟨9, 3, 0, 1⟩] constStream 2
        ⟨[⟨9, 3, 0, 1⟩], 0, 0, 0, 0, 1, []⟩ = some t) ∧
    (∃ t, DeepDive.fgLoop ⟨[], [⟨2, 1, false, 0, 1⟩], [], []⟩ constStream 2
        ⟨[⟨2, 1, false, 0, 1⟩], 0, 0, 0, 0, 1, [], false, 0⟩ = some t ∧
        t.queue = []) :=
  ⟨fg_loop_terminates_without_continuation.1 [⟨9, 3, 0, 1⟩] constStream 2 _
      (by decide) (by decide) (by decide),
    fg_loop_terminates_without_continuation.2 ⟨[], [⟨2, 1, false, 0, 1⟩], [], []⟩
      constStream 2 _ (by decide) (by decide) (by decide)⟩

/-! ### Histogram (MonteCarloSimulator.h lines 57-62, observe logic at
MonteCarloSimulator.cpp lines 378-384 / 502-511, merge at 1177-1186) -/

/-- Embeds `MonteCarloSimulator::Histogram`: bin edges (`dividers`), per-bin
counts, and the implicit underflow/overflow buckets.  Counts are
`long long` in C++ but only ever incremented, hence `ℕ`. -/
structure Histogram where
  dividers : List ℚ
  bins : List ℕ
  underflow : ℕ
  overflow : ℕ
deriving DecidableEq

/-- The histogram state right after `setCustomHistogramBins` /
`resetState`: `bins.assign(dividers.size() - 1, 0)` with zero
underflow and overflow. -/
def emptyHistogram (dividers : List ℚ) : Histogram :=
  ⟨dividers, List.replicate (dividers.length - 1) 0, 0, 0⟩

/-- Performs `bins[i]++`. -/
def incrementBin : List ℕ → ℕ → List ℕ
  | [], _ => []
  | b :: bs, 0 => (b + 1) :: bs
  | b :: bs, i + 1 => b :: incrementBin bs i

/-- One histogram observation (MonteCarloSimulator.cpp lines 502-511):
negative totals underflow, totals at or past the last edge overflow,
and otherwise `std::upper_bound` locates the first divider strictly
above the value and the bin below it is incremented.  On the sorted
divider lists the code is configured with, `upper_bound` returns the
first index whose divider exceeds the value, which is how it is
modelled here. -/
def Histogram.observe (h : Histogram) (value : ℚ) : Histogram :=
  if value < 0 then { h with underflow := h.underflow + 1 }
  else if h.dividers.getLastD 0 ≤ value then { h with overflow := h.overflow + 1 }
  else
    let idx := h.dividers.findIdx (fun d => value < d)
    { h with bins := incrementBin h.bins (idx - 1) }

/-- The per-thread histogram merge (MonteCarloSimulator.cpp lines
1177-1186): bin-wise sums plus summed underflow/overflow. -/
def Histogram.merge (a b : Histogram) : Histogram :=
  ⟨a.dividers, List.zipWith (· + ·) a.bins b.bins,
    a.underflow + b.underflow, a.overflow + b.overflow⟩

/-- Total number of observations a histogram accounts for. -/
def Histogram.total (h : Histogram) : ℕ := h.bins.sum + h.underflow + h.overflow

theorem incrementBin_length (bs : List ℕ) (i : ℕ) :
    (incrementBin bs i).length = bs.length := by
  induction bs generalizing i with
  | nil => rfl
  | cons b bs ih =>
      rcases i with _ | i
      · rfl
      · simp [incrementBin, ih]

theorem incrementBin_sum (bs : List ℕ) (i : ℕ) (hi : i < bs.length) :
    (incrementBin bs i).sum = bs.sum + 1 := by
  induction bs generalizing i with
  | nil => simp at hi
  | cons b bs ih =>
      rcases i with _ | i
      · simp [incrementBin]
        omega
      · simp only [incrementBin, List.sum_cons, ih i (by simpa using hi)]
        omega

theorem observe_dividers (h : Histogram) (v : ℚ) :
    (h.observe v).dividers = h.dividers := by
  unfold Histogram.observe
  split <;> [rfl; split <;> rfl]

theorem observe_bins_length (h : Histogram) (v : ℚ) :
    (h.observe v).bins.length = h.bins.length := by
  unfold Histogram.observe
  split
  · rfl
  · split
    · rfl
    · simp [incrementBin_length]

theorem observe_total (h : Histogram) (v : ℚ)
    (hlen : h.bins.length + 1 = h.dividers.length)
    (hhead : h.dividers.head? = some 0) :
    (h.observe v).total = h.total + 1 := by
  unfold Histogram.observe
  split
  · simp [Histogram.total]
    omega
  · split
    · simp [Histogram.total]
      omega
    · rename_i hneg hlast
      obtain ⟨d0, tl, hd⟩ : ∃ d0 tl, h.dividers = d0 :: tl := by
        rcases hds : h.dividers with _ | ⟨d0, tl⟩
        · rw [hds] at hhead; cases hhead
        · exact ⟨d0, tl, rfl⟩
      have hd0 : d0 = 0 := by rw [hd] at hhead; simpa using hhead
      have hlt : v < h.dividers.getLastD 0 := lt_of_not_le hlast
      have hmem : h.dividers.getLastD 0 ∈ h.dividers := by
        rw [hd, List.getLastD_eq_getLast?,
          List.getLast?_eq_getLast (d0 :: tl) (by simp)]
        simpa using List.getLast_mem (l := d0 :: tl) (by simp)
      have hfound : h.dividers.findIdx (fun d => v < d) < h.dividers.length := by
        apply List.findIdx_lt_length_of_exists
        exact ⟨_, hmem, by simpa using hlt⟩
      have hidx1 : 1 ≤ h.dividers.findIdx (fun d => v < d) := by
        rw [hd, List.findIdx_cons]
        have hv0 : ¬ v < d0 := by rw [hd0]; exact hneg
        simp [hv0]
      have hbin : h.dividers.findIdx (fun d => v < d) - 1 < h.bins.length := by
        omega
      simp only [Histogram.total]
      rw [incrementBin_sum _ _ hbin]
      omega

theorem sum_zipWith_add (l₁ l₂ : List ℕ) (h : l₁.length = l₂.length) :
    (List.zipWith (· + ·) l₁ l₂).sum = l₁.sum + l₂.sum := by
  induction l₁ generalizing l₂ with
  | nil => cases l₂ <;> simp_all
  | cons a l₁ ih =>
      cases l₂ with
      | nil => simp at h
      | cons b l₂ =>
          simp only [List.zipWith_cons_cons, List.sum_cons, ih l₂ (by simpa using h)]
          omega

theorem merge_total (a b : Histogram) (h : a.bins.length = b.bins.length) :
    (a.merge b).total = a.total + b.total := by
  simp [Histogram.merge, Histogram.total, sum_zipWith_add _ _ h]
  omega

theorem foldl_observe_dividers (ds : List ℚ) (h0 : Histogram)
    (hd : h0.dividers = ds) (vs : List ℚ) :
    (vs.foldl Histogram.observe h0).dividers = ds := by
  induction vs generalizing h0 with
  | nil => simpa using hd
  | cons v vs ih => exact ih _ (by rw [observe_dividers, hd])

theorem foldl_observe_bins_length (h0 : Histogram) (vs : List ℚ) :
    (vs.foldl Histogram.observe h0).bins.length = h0.bins.length := by
  induction vs generalizing h0 with
  | nil => rfl
  | cons v vs ih => rw [List.foldl_cons, ih, observe_bins_length]

theorem foldl_observe_total (ds : List ℚ) (hhead : ds.head? = some 0) :
    ∀ (vs : List ℚ) (h0 : Histogram), h0.dividers = ds →
      h0.bins.length + 1 = ds.length →
      (vs.foldl Histogram.observe h0).total = h0.total + vs.length := by
  intro vs
  induction vs with
  | nil => intro h0 _ _; simp
  | cons v vs ih =>
      intro h0 hd hlen
      rw [List.foldl_cons,
        ih _ (by rw [observe_dividers, hd]) (by rw [observe_bins_length]; exact hlen),
        observe_total _ _ (by rw [hd]; exact hlen) (hd ▸ hhead)]
      simp
      omega

/-- Claim C5: for every well-formed divider configuration (first edge
0, strictly increasing edges, as built by the histogram configuration
functions), the sum of all bin counts plus underflow plus overflow
equals the number of rounds observed — for a single sequential fold
of `observe` calls, and for per-worker histograms merged bin-by-bin
after the parallel region (no loss and no double counting). -/
theorem histogram_total_conservation :
    ∀ ds : List ℚ, ds.head? = some 0 → List.Sorted (· < ·) ds →
      (∀ vs : List ℚ,
        (vs.foldl Histogram.observe (emptyHistogram ds)).total = vs.length) ∧
      (∀ wss : List (List ℚ),
        (wss.foldl
            (fun acc ws =>
              acc.merge (ws.foldl Histogram.observe (emptyHistogram ds)))
            (emptyHistogram ds)).total = (wss.map List.length).sum) := by
  intro ds hhead _hsorted
  have hne : ds ≠ [] := by intro h; rw [h] at hhead; cases hhead
  have hlen0 : (emptyHistogram ds).bins.length + 1 = ds.length := by
    simp [emptyHistogram]
    exact Nat.succ_pred_eq_of_pos (List.length_pos.mpr hne)
  have hsingle : ∀ vs : List ℚ,
      (vs.foldl Histogram.observe (emptyHistogram ds)).total = vs.length := by
    intro vs
    rw [foldl_observe_total ds hhead vs (emptyHistogram ds) rfl hlen0]
    simp [emptyHistogram, Histogram.total]
  refine ⟨hsingle, ?_⟩
  have hmerge : ∀ (wss : List (List ℚ)) (acc : Histogram),
      acc.bins.length + 1 = ds.length →
      (wss.foldl
          (fun acc ws =>
            acc.merge (ws.foldl Histogram.observe (emptyHistogram ds)))
          acc).total = acc.total + (wss.map List.length).sum := by
    intro wss
    induction wss with
    | nil => intro acc _; simp
    | cons ws wss ih =>
        intro acc hacc
        have hw : (ws.foldl Histogram.observe (emptyHistogram ds)).bins.length
            = ds.length - 1 := by
          rw [foldl_observe_bins_length]
          simp [emptyHistogram]
        rw [List.foldl_cons, ih _ (by simp [Histogram.merge]; omega),
          merge_total _ _ (by omega), hsingle ws]
        simp
        omega
  intro wss
  rw [hmerge wss (emptyHistogram ds) hlen0]
  simp [emptyHistogram, Histogram.total]

/-- Witness for `histogram_total_conservation` on the divider list
`[0, 1, 5]` with one in-range, one underflow and one overflow
observation, and a two-worker split of the same rounds. -/
theorem histogram_total_conservation_witness :
    (([3, -1, 7] : List ℚ).foldl Histogram.observe
        (emptyHistogram [0, 1, 5])).total = 3 ∧
    (([[3], [-1, 7]] : List (List ℚ)).foldl
        (fun acc ws => acc.merge (ws.foldl Histogram.observe (emptyHistogram [0, 1, 5])))
        (emptyHistogram [0, 1, 5])).total = 3 :=
  ⟨(histogram_total_conservation [0, 1, 5] (by decide) (by decide)).1 [3, -1, 7],
    (histogram_total_conservation [0, 1, 5] (by decide) (by decide)).2 [[3], [-1, 7]]⟩

/-! ### Percentile from histogram (MonteCarloSimulator.cpp lines 1769-1783) -/

/-- The bucket walk of `getPercentileFromHistogram` (lines 1774-1782):
`current` is the cumulative count before the current bin; the walk
stops at the first bin whose cumulative count reaches `target` and
linearly interpolates inside that bin's edge range; if the counts are
exhausted it returns `dividers.back()`.  `bins` and the remaining
divider list stay aligned: the divider list always holds one more
entry than the bin list. -/
def percentileWalk (target : ℤ) : List ℕ → List ℚ → ℤ → ℚ
  | b :: bs, d0 :: d1 :: ds, current =>
      if target ≤ current + b then
        d0 + (if 0 < b then ((target - current : ℤ) : ℚ) / (b : ℚ) else 0) * (d1 - d0)
      else percentileWalk target bs (d1 :: ds) (current + b)
  | _, ds, _ => ds.getLastD 0

/-- Embeds `MonteCarloSimulator::getPercentileFromHistogram` (lines
1769-1783).  `count` is `m_stats.count`.  The C++
`long long target_count = count * (percentile / 100.0)` truncates
toward zero, which on the non-negative percentiles the function is
used with is the floor. -/
def getPercentileFromHistogram (h : Histogram) (count : ℕ) (percentile : ℚ) : ℚ :=
  if count = 0 then 0
  else
    let target : ℤ := ⌊(count : ℚ) * (percentile / 100)⌋
    if target ≤ (h.underflow : ℤ) then h.dividers.headD 0
    else percentileWalk target h.bins h.dividers h.underflow

theorem getLastD_cons_of_ne_nil (a : ℚ) (l : List ℚ) (d : ℚ) (h : l ≠ []) :
    (a :: l).getLastD d = l.getLastD d := by
  rcases l with _ | ⟨b, l⟩
  · simp at h
  · simp [List.getLastD_cons]

theorem percentileWalk_ge_head :
    ∀ (bins : List ℕ) (divs : List ℚ) (current target : ℤ),
      divs.Sorted (· ≤ ·) → divs.length = bins.length + 1 → current < target →
      divs.headD 0 ≤ percentileWalk target bins divs current := by
  intro bins
  induction bins with
  | nil =>
      intro divs current target _ hlen _
      rcases divs with _ | ⟨d, ds⟩
      · simp at hlen
      · rcases ds with _ | ⟨d', ds⟩
        · simp [percentileWalk]
        · simp at hlen
  | cons b bs ih =>
      intro divs current target hsorted hlen hcur
      rcases divs with _ | ⟨d0, ds⟩
      · simp at hlen
      rcases ds with _ | ⟨d1, ds⟩
      · simp at hlen
      have hd01 : d0 ≤ d1 := (List.sorted_cons.mp hsorted).1 d1 (by simp)
      simp only [percentileWalk]
      split
      · rename_i hstop
        have hb : (0 : ℤ) < b := by omega
        have hfrac : (0 : ℚ) ≤ ((target - current : ℤ) : ℚ) / (b : ℚ) := by
          apply div_nonneg
          · exact_mod_cast le_of_lt (by omega : (0 : ℤ) < target - current)
          · exact_mod_cast Nat.zero_le b
        rw [if_pos (by exact_mod_cast hb)]
        simp only [List.headD_cons]
        nlinarith [mul_nonneg hfrac (sub_nonneg.mpr hd01)]
      · rename_i hgo
        have := ih (d1 :: ds) (current + b) target
          (List.sorted_cons.mp hsorted).2 (by simpa using hlen) (by omega)
        calc d0 ≤ d1 := hd01
          _ ≤ _ := by simpa using this

theorem percentileWalk_mono :
    ∀ (bins : List ℕ) (divs : List ℚ) (current t1 t2 : ℤ),
      divs.Sorted (· ≤ ·) → divs.length = bins.length + 1 →
      current < t1 → t1 ≤ t2 →
      percentileWalk t1 bins divs current ≤ percentileWalk t2 bins divs current := by
  intro bins
  induction bins with
  | nil =>
      intro divs current t1 t2 _ hlen _ _
      rcases divs with _ | ⟨d, ds⟩
      · simp at hlen
      rcases ds with _ | ⟨d', ds⟩
      · simp [percentileWalk]
      · simp at hlen
  | cons b bs ih =>
      intro divs current t1 t2 hsorted hlen h1 h12
      rcases divs with _ | ⟨d0, ds⟩
      · simp at hlen
      rcases ds with _ | ⟨d1, ds⟩
      · simp at hlen
      have hd01 : d0 ≤ d1 := (List.sorted_cons.mp hsorted).1 d1 (by simp)
      simp only [percentileWalk]
      by_cases h2stop : t2 ≤ current + b
      · have h1stop : t1 ≤ current + b := le_trans h12 h2stop
        have hb : (0 : ℤ) < b := by omega
        have hbq : (0 : ℚ) < (b : ℚ) := by exact_mod_cast hb
        rw [if_pos h1stop, if_pos h2stop, if_pos (by exact_mod_cast hb),
          if_pos (by exact_mod_cast hb)]
        have hfr : ((t1 - current : ℤ) : ℚ) / (b : ℚ)
            ≤ ((t2 - current : ℤ) : ℚ) / (b : ℚ) := by
          apply (div_le_div_right hbq).mpr
          exact_mod_cast by omega
        exact add_le_add_left
          (mul_le_mul_of_nonneg_right hfr (sub_nonneg.mpr hd01)) d0
      · by_cases h1stop : t1 ≤ current + b
        · have hb : (0 : ℤ) < b := by omega
          have hbq : (0 : ℚ) < (b : ℚ) := by exact_mod_cast hb
          rw [if_pos h1stop, if_neg h2stop, if_pos (by exact_mod_cast hb)]
          have hf1 : ((t1 - current : ℤ) : ℚ) / (b : ℚ) ≤ 1 := by
            apply (div_le_one hbq).mpr
            exact_mod_cast by omega
          have hr1 : d0 + ((t1 - current : ℤ) : ℚ) / (b : ℚ) * (d1 - d0) ≤ d1 := by
            have := mul_le_mul_of_nonneg_right hf1 (sub_nonneg.mpr hd01)
            linarith
          have hr2 : d1 ≤ percentileWalk t2 bs (d1 :: ds) (current + b) := by
            have := percentileWalk_ge_head bs (d1 :: ds) (current + b) t2
              (List.sorted_cons.mp hsorted).2 (by simpa using hlen) (by omega)
            simpa using this
          exact le_trans hr1 hr2
        · rw [if_neg h1stop, if_neg h2stop]
          exact ih (d1 :: ds) (current + b) t1 t2
            (List.sorted_cons.mp hsorted).2 (by simpa using hlen) (by omega) h12

theorem percentileWalk_exhaust :
    ∀ (bins : List ℕ) (divs : List ℚ) (current target : ℤ),
      (current + (bins.sum : ℤ)) < target →
      percentileWalk target bins divs current = divs.getLastD 0 := by
  intro bins
  induction bins with
  | nil =>
      intro divs current target _
      rcases divs with _ | ⟨d, ds⟩
      · rfl
      rcases ds with _ | ⟨d', ds⟩
      · rfl
      · rfl
  | cons b bs ih =>
      intro divs current target hlt
      rcases divs with _ | ⟨d0, ds⟩
      · rfl
      rcases ds with _ | ⟨d1, ds⟩
      · rfl
      simp only [percentileWalk]
      have hcast : (((b :: bs).sum : ℕ) : ℤ) = (b : ℤ) + ((bs.sum : ℕ) : ℤ) := by
        rw [List.sum_cons]
        push_cast
        ring
      rw [if_neg (by omega)]
      rw [ih (d1 :: ds) (current + b) target (by omega)]
      exact (getLastD_cons_of_ne_nil d0 (d1 :: ds) 0 (by simp)).symm

/-- Claim C7, counterexample: the reachable histogram state holding a
single underflow observation (edges `[0,1,5]`, one observation `-1`)
makes `getPercentileFromHistogram` return the FIRST edge (0) at
percentile 100, not the last edge (5): the initial
`target <= underflow` shortcut fires before the walk can reach the
last edge. -/
theorem percentile100_first_edge_counterexample :
    getPercentileFromHistogram ((emptyHistogram [0, 1, 5]).observe (-1)) 1 100 = 0 ∧
    ((emptyHistogram [0, 1, 5]).observe (-1)).dividers.getLastD 0 = 5 := by
  have hobs : (emptyHistogram [0, 1, 5]).observe (-1) =
      ⟨[0, 1, 5], [0, 0], 1, 0⟩ := by
    norm_num [Histogram.observe, emptyHistogram]
    rfl
  rw [hobs]
  constructor
  · have htarget : ⌊((1 : ℕ) : ℚ) * ((100 : ℚ) / 100)⌋ = 1 := by norm_num
    simp only [getPercentileFromHistogram]
    rw [if_neg (by norm_num), if_pos (by rw [htarget]; norm_num)]
    rfl
  · rfl

/-- Claim C7 (amended): for any histogram with monotone edges and at
least one observation, `getPercentileFromHistogram` is non-decreasing
in the percentile argument over `[0, 100]`, and it returns the first
edge whenever the target rank is at or below the underflow count.  At
percentile 100 it returns the LAST edge provided at least one
observation landed in the overflow bucket; when instead every
observation is below the first edge, the underflow shortcut returns
the first edge even at percentile 100 (see the counterexample). -/
theorem percentile_from_histogram_spec :
    (∀ (h : Histogram) (count : ℕ) (p q : ℚ),
        h.dividers.Sorted (· ≤ ·) →
        h.dividers.length = h.bins.length + 1 →
        1 ≤ count → 0 ≤ p → p ≤ q → q ≤ 100 →
        getPercentileFromHistogram h count p ≤
          getPercentileFromHistogram h count q) ∧
    (∀ (h : Histogram) (count : ℕ) (p : ℚ),
        1 ≤ count →
        ⌊(count : ℚ) * (p / 100)⌋ ≤ (h.underflow : ℤ) →
        getPercentileFromHistogram h count p = h.dividers.headD 0) ∧
    (∀ (h : Histogram) (count : ℕ),
        1 ≤ h.overflow → count = h.total →
        getPercentileFromHistogram h count 100 = h.dividers.getLastD 0) := by
  refine ⟨?_, ?_, ?_⟩
  · intro h count p q hsorted hlen hcount hp hpq _hq
    have hc0 : count ≠ 0 := by omega
    have hT : ⌊(count : ℚ) * (p / 100)⌋ ≤ ⌊(count : ℚ) * (q / 100)⌋ := by
      apply Int.floor_le_floor
      have hpq' : p / 100 ≤ q / 100 := by
        apply (div_le_div_right (by norm_num : (0 : ℚ) < 100)).mpr hpq
      exact mul_le_mul_of_nonneg_left hpq' (by positivity)
    simp only [getPercentileFromHistogram]
    rw [if_neg hc0, if_neg hc0]
    by_cases hq' : ⌊(count : ℚ) * (q / 100)⌋ ≤ (h.underflow : ℤ)
    · rw [if_pos (le_trans hT hq'), if_pos hq']
    · by_cases hp' : ⌊(count : ℚ) * (p / 100)⌋ ≤ (h.underflow : ℤ)
      · rw [if_pos hp', if_neg hq']
        exact percentileWalk_ge_head h.bins h.dividers h.underflow _ hsorted hlen
          (by omega)
      · rw [if_neg hp', if_neg hq']
        exact percentileWalk_mono h.bins h.dividers h.underflow _ _ hsorted hlen
          (by omega) hT
  · intro h count p hcount htarget
    simp only [getPercentileFromHistogram]
    rw [if_neg (by omega), if_pos htarget]
  · intro h count hov htot
    have hc0 : count ≠ 0 := by
      simp only [Histogram.total] at htot
      omega
    simp only [getPercentileFromHistogram]
    rw [if_neg hc0]
    have htarget : ⌊(count : ℚ) * ((100 : ℚ) / 100)⌋ = (count : ℤ) := by
      norm_num
    rw [htarget]
    have hcu : (h.underflow : ℤ) < count := by
      simp only [Histogram.total] at htot
      omega
    rw [if_neg (by omega)]
    apply percentileWalk_exhaust
    simp only [Histogram.total] at htot
    omega

/-- Witness for `percentile_from_histogram_spec`: monotonicity between
percentiles 50 and 100 on a one-observation histogram, the
first-edge shortcut at percentile 0, and the last edge at percentile
100 when the single observation overflowed. -/
theorem percentile_from_histogram_spec_witness :
    (getPercentileFromHistogram ⟨[0, 1, 5], [1, 0], 0, 0⟩ 1 50 ≤
        getPercentileFromHistogram ⟨[0, 1, 5], [1, 0], 0, 0⟩ 1 100) ∧
    (getPercentileFromHistogram ⟨[0, 1, 5], [0, 1], 1, 0⟩ 2 0 =
        ([0, 1, 5] : List ℚ).headD 0) ∧
    (getPercentileFromHistogram ⟨[0, 1, 5], [0, 0], 0, 1⟩ 1 100 =
        ([0, 1, 5] : List ℚ).getLastD 0) :=
  ⟨percentile_from_histogram_spec.1 ⟨[0, 1, 5], [1, 0], 0, 0⟩ 1 50 100
      (by decide) rfl (by norm_num) (by norm_num) (by norm_num) (by norm_num),
    percentile_from_histogram_spec.2.1 ⟨[0, 1, 5], [0, 1], 1, 0⟩ 2 0
      (by norm_num) (by norm_num),
    percentile_from_histogram_spec.2.2 ⟨[0, 1, 5], [0, 0], 0, 1⟩ 1
      (by norm_num) rfl⟩

/-! ### FG_ONLY trial-count adjustment (MonteCarloSimulator.cpp
lines 171-178 and 232-266) -/

/-- The `FG_ONLY` adjustment of `run(numSimulations, ...)`
(MonteCarloSimulator.cpp lines 172-175): integer-divide the requested
count by 10 (C++ `/` truncates toward zero, `Int.tdiv`), then floor
the result at 1 when the request was positive. -/
def fgOnlyEffectiveSingle (numSimulations : ℤ) : ℤ :=
  let e := numSimulations.tdiv 10
  if e = 0 ∧ 0 < numSimulations then 1 else e

/-- The `FG_ONLY` adjustment of the batched `run(k, m, ...)`
(MonteCarloSimulator.cpp lines 256-260): the per-batch round count `m`
is divided by 10 and floored at 1; the batch count `k` is kept. -/
def fgOnlyRoundsPerBatch (k m : ℤ) : ℤ :=
  let r := m.tdiv 10
  if r = 0 ∧ 0 < k * m then 1 else r

/-- The effective total round count of the batched
`run(k, m, sim_mode, ...)` (MonteCarloSimulator.cpp lines 232-266):
`none` models the `std::invalid_argument` thrown when `k*m <= 0`;
otherwise `numSimulations = numRounds * numBatches` after the
`FG_ONLY` adjustment. -/
def runBatchedTotal (k m : ℤ) (fg_only : Bool) : Option ℤ :=
  if k * m ≤ 0 then none
  else if fg_only then some (fgOnlyRoundsPerBatch k m * k)
  else some (k * m)

/-- Claim C4, counterexample: for the batched run with `k = 3`,
`m = 15` in `FG_ONLY` mode the code runs `3 * (15 / 10) = 3` rounds,
not `floor(3*15/10) = 4` as the claim states for the requested total
`K*M`. -/
theorem fgOnly_batched_total_counterexample :
    runBatchedTotal 3 15 true = some 3 ∧
    max ((3 * 15 : ℤ).tdiv 10) 1 = 4 := by
  constructor <;> decide

/-- Claim C4 (amended): in `FG_ONLY` mode the single-argument
`run(numSimulations, ...)` executes `floor(requested/10)` rounds with
a floor of 1 when the request is positive, exactly as claimed; the
batched `run(K, M, ...)` instead reduces only the per-batch round
count, executing `K * max(floor(M/10), 1)` rounds in total, which can
differ from `floor(K*M/10)`. -/
theorem fgOnly_effective_trials :
    (∀ n : ℤ, 0 < n → fgOnlyEffectiveSingle n = max (n.tdiv 10) 1) ∧
    (∀ k m : ℤ, 0 < k → 0 < m →
      runBatchedTotal k m true = some (k * max (m.tdiv 10) 1)) := by
  constructor
  · intro n hn
    have ht : n.tdiv 10 = n / 10 := Int.tdiv_eq_ediv (by omega) (by omega)
    simp only [fgOnlyEffectiveSingle, ht]
    rcases le_or_lt 10 n with h10 | h10
    · have : 1 ≤ n / 10 := by omega
      rw [if_neg (by omega)]
      omega
    · have : n / 10 = 0 := by omega
      rw [if_pos (by omega)]
      omega
  · intro k m hk hm
    have hkm : 0 < k * m := mul_pos hk hm
    have ht : m.tdiv 10 = m / 10 := Int.tdiv_eq_ediv (by omega) (by omega)
    simp only [runBatchedTotal, fgOnlyRoundsPerBatch, ht]
    rw [if_neg (by omega), if_pos trivial]
    rcases le_or_lt 10 m with h10 | h10
    · have h1 : 1 ≤ m / 10 := by omega
      rw [if_neg (by omega), max_eq_left h1, mul_comm]
    · have h0 : m / 10 = 0 := by omega
      rw [if_pos (by omega), h0]
      have hmax : (0 : ℤ) ⊔ 1 = 1 := by decide
      rw [hmax, one_mul, mul_one]

/-- Witness for `fgOnly_effective_trials` at `n = 25` and
`(k, m) = (3, 25)`. -/
theorem fgOnly_effective_trials_witness :
    fgOnlyEffectiveSingle 25 = max ((25 : ℤ).tdiv 10) 1 ∧
    runBatchedTotal 3 25 true = some (3 * max ((25 : ℤ).tdiv 10) 1) :=
  ⟨fgOnly_effective_trials.1 25 (by norm_num),
    fgOnly_effective_trials.2 3 25 (by norm_num) (by norm_num)⟩

/-! ### Statistics helpers (Statistics.h and its implementation file) -/

namespace Statistics

/-- Embeds `Statistics::findValueAtPercentile` (implementation lines 55-77):
throws (`none`) on empty data or a percentile outside `[0, 100]`,
sorts the data ascending (`std::sort`, modelled by insertion sort —
any comparison sort yields the same list over a total order), returns
the last element at percentile 100, and otherwise linearly
interpolates between the two closest ranks of the `(N-1)` rank
`rank = (percentile/100) * (N-1)`; the C++
`static_cast<size_t>(rank)` truncation equals the floor on this
non-negative rank. -/
def findValueAtPercentile (data : List ℚ) (percentile : ℚ) : Option ℚ :=
  if data = [] ∨ percentile < 0 ∨ 100 < percentile then none
  else
    let sorted := List.insertionSort (· ≤ ·) data
    if percentile = 100 then some (sorted.getLastD 0)
    else
      let rank : ℚ := (percentile / 100) * ((data.length : ℚ) - 1)
      let lower : ℕ := ⌊rank⌋.toNat
      let fraction : ℚ := rank - (lower : ℚ)
      if data.length ≤ lower + 1 then some (sorted.getLastD 0)
      else some (sorted.getD lower 0 +
        fraction * (sorted.getD (lower + 1) 0 - sorted.getD lower 0))

theorem findValueAtPercentile_mem_range (data : List ℚ) (p x : ℚ)
    (hne : data ≠ []) (hx : findValueAtPercentile data p = some x) :
    (∀ lo : ℚ, (∀ v ∈ data, lo ≤ v) → lo ≤ x) ∧
    (∀ hi : ℚ, (∀ v ∈ data, v ≤ hi) → x ≤ hi) := by
  have hperm : (List.insertionSort (· ≤ ·) data).Perm data :=
    List.perm_insertionSort _ _
  have hsorted : List.Sorted (· ≤ ·) (List.insertionSort (· ≤ ·) data) :=
    List.sorted_insertionSort _ _
  have hslen : (List.insertionSort (· ≤ ·) data).length = data.length :=
    hperm.length_eq
  have hsne : List.insertionSort (· ≤ ·) data ≠ [] := by
    intro h
    exact hne (List.length_eq_zero.mp (by rw [← hslen, h, List.length_nil]))
  have hlast_mem : (List.insertionSort (· ≤ ·) data).getLastD 0 ∈ data := by
    rw [List.getLastD_eq_getLast?, List.getLast?_eq_getLast _ hsne]
    exact hperm.mem_iff.mp (by simpa using List.getLast_mem hsne)
  unfold findValueAtPercentile at hx
  split at hx
  · cases hx
  · rename_i hguard
    push_neg at hguard
    obtain ⟨-, hp0, hp100⟩ := hguard
    split at hx
    · cases hx
      exact ⟨fun lo hlo => hlo _ hlast_mem, fun hi hhi => hhi _ hlast_mem⟩
    · rename_i hp100'
      dsimp only at hx
      split at hx
      · cases hx
        exact ⟨fun lo hlo => hlo _ hlast_mem, fun hi hhi => hhi _ hlast_mem⟩
      · rename_i hlow
        push_neg at hlow
        cases hx
        set rank : ℚ := (p / 100) * ((data.length : ℚ) - 1) with hrank
        set lower : ℕ := ⌊rank⌋.toNat with hlower
        have hlen1 : 1 ≤ data.length := by
          rcases data with _ | _
          · exact absurd rfl hne
          · simp
        have hrank0 : 0 ≤ rank := by
          rw [hrank]
          apply mul_nonneg (by positivity)
          have : (1 : ℚ) ≤ (data.length : ℚ) := by exact_mod_cast hlen1
          linarith
        have hfloor0 : 0 ≤ ⌊rank⌋ := Int.floor_nonneg.mpr hrank0
        have hcast : ((lower : ℕ) : ℚ) = ((⌊rank⌋ : ℤ) : ℚ) := by
          rw [hlower]
          exact_mod_cast Int.toNat_of_nonneg hfloor0
        have hfrac0 : 0 ≤ rank - (lower : ℚ) := by
          rw [hcast]
          exact sub_nonneg.mpr (Int.floor_le rank)
        have hfrac1 : rank - (lower : ℚ) ≤ 1 := by
          rw [hcast]
          have := Int.lt_floor_add_one rank
          push_cast at this ⊢
          linarith
        have hl1 : lower + 1 < (List.insertionSort (· ≤ ·) data).length := by
          rw [hslen]; omega
        have hl0 : lower < (List.insertionSort (· ≤ ·) data).length := by omega
        have ha : (List.insertionSort (· ≤ ·) data).getD lower 0 =
            (List.insertionSort (· ≤ ·) data).get ⟨lower, hl0⟩ :=
          List.getD_eq_get _ _ hl0
        have hb : (List.insertionSort (· ≤ ·) data).getD (lower + 1) 0 =
            (List.insertionSort (· ≤ ·) data).get ⟨lower + 1, hl1⟩ :=
          List.getD_eq_get _ _ hl1
        have hab : (List.insertionSort (· ≤ ·) data).get ⟨lower, hl0⟩ ≤
            (List.insertionSort (· ≤ ·) data).get ⟨lower + 1, hl1⟩ :=
          List.Sorted.rel_get_of_lt hsorted (by simp)
        have hmema : (List.insertionSort (· ≤ ·) data).get ⟨lower, hl0⟩ ∈ data :=
          hperm.mem_iff.mp (List.get_mem _ _ _)
        have hmemb : (List.insertionSort (· ≤ ·) data).get ⟨lower + 1, hl1⟩ ∈ data :=
          hperm.mem_iff.mp (List.get_mem _ _ _)
        rw [ha, hb]
        constructor
        · intro lo hlo
          have h1 : lo ≤ (List.insertionSort (· ≤ ·) data).get ⟨lower, hl0⟩ :=
            hlo _ hmema
          have h4 := mul_nonneg hfrac0 (sub_nonneg.mpr hab)
          linarith
        · intro hi hhi
          have h2 : (List.insertionSort (· ≤ ·) data).get ⟨lower + 1, hl1⟩ ≤ hi :=
            hhi _ hmemb
          have h3 := mul_le_mul_of_nonneg_right hfrac1 (sub_nonneg.mpr hab)
          linarith

end Statistics

/-- The bootstrap confidence-interval stage of
`analyzeAccurateResults(k, m)` (MonteCarloSimulator.cpp lines
1756-1762): the empirical 5/95, 2.5/97.5 and 0.5/99.5 percentile pairs
of the resample means, reported as the 90/95/99% intervals. -/
def bootstrapConfidenceIntervals (means : List ℚ) :
    List (ℚ × Option ℚ × Option ℚ) :=
  [(90, Statistics.findValueAtPercentile means 5,
        Statistics.findValueAtPercentile means 95),
   (95, Statistics.findValueAtPercentile means 2.5,
        Statistics.findValueAtPercentile means 97.5),
   (99, Statistics.findValueAtPercentile means 0.5,
        Statistics.findValueAtPercentile means 99.5)]

/-- Claim C8: every lower and upper bound produced by the bootstrap
confidence-interval stage lies within
`[min(resample_means), max(resample_means)]` — stated as: every bound
is above every lower bound of the means and below every upper bound
of the means. -/
theorem bootstrap_ci_bounds_within_range :
    ∀ means : List ℚ, means ≠ [] →
      ∀ ci ∈ bootstrapConfidenceIntervals means, ∀ x : ℚ,
        ci.2.1 = some x ∨ ci.2.2 = some x →
        (∀ lo : ℚ, (∀ v ∈ means, lo ≤ v) → lo ≤ x) ∧
        (∀ hi : ℚ, (∀ v ∈ means, v ≤ hi) → x ≤ hi) := by
  intro means hne ci hci x hx
  simp only [bootstrapConfidenceIntervals, List.mem_cons,
    List.not_mem_nil, or_false] at hci
  rcases hci with rfl | rfl | rfl <;>
    rcases hx with hx | hx <;>
    exact Statistics.findValueAtPercentile_mem_range means _ x hne hx

/-- Witness for `bootstrap_ci_bounds_within_range`: the 5th-percentile
lower bound of the 90% interval over the resample means `[1, 2]` is
`21/20`, which every lower bound of the means is below and every upper
bound is above. -/
theorem bootstrap_ci_bounds_within_range_witness :
    (∀ lo : ℚ, (∀ v ∈ ([1, 2] : List ℚ), lo ≤ v) → lo ≤ 21 / 20) ∧
    (∀ hi : ℚ, (∀ v ∈ ([1, 2] : List ℚ), v ≤ hi) → 21 / 20 ≤ hi) :=
  bootstrap_ci_bounds_within_range [1, 2] (by simp)
    (90, Statistics.findValueAtPercentile [1, 2] 5,
      Statistics.findValueAtPercentile [1, 2] 95)
    (by simp [bootstrapConfidenceIntervals]) (21 / 20)
    (Or.inl (by
      unfold Statistics.findValueAtPercentile
      rw [if_neg (by push_neg; exact ⟨by simp, by norm_num, by norm_num⟩),
        if_neg (by norm_num)]
      norm_num [List.insertionSort, List.orderedInsert]))

/-! ### Batched-means confidence intervals
(Statistics::findTValue, analyzeEfficientResults(k) at
MonteCarloSimulator.cpp lines 1615-1641) -/

namespace Statistics

/-- Embeds `Statistics::calculateMean` (implementation lines 10-14): 0 on
empty data, otherwise the arithmetic mean. -/
noncomputable def calculateMean (data : List ℝ) : ℝ :=
  if data = [] then 0 else data.sum / data.length

/-- Embeds `Statistics::calculateVariance` (implementation lines 16-23):
population variance (division by `N`), 0 when fewer than two points. -/
noncomputable def calculateVariance (data : List ℝ) (mean : ℝ) : ℝ :=
  if data.length < 2 then 0
  else ((data.map (fun v => (v - mean) ^ 2)).sum) / data.length

/-- The two-tailed t-critical-value table of `Statistics::findTValue`
(implementation lines 126-146), keyed by degrees of freedom with the
90/95/99% columns. -/
def tTable : List (ℤ × ℚ × ℚ × ℚ) :=
  [(1, 6.314, 12.706, 63.657),
   (2, 2.920, 4.303, 9.925),
   (3, 2.353, 3.182, 5.841),
   (4, 2.132, 2.776, 4.604),
   (5, 2.015, 2.571, 4.032),
   (6, 1.943, 2.447, 3.707),
   (7, 1.895, 2.365, 3.499),
   (8, 1.860, 2.306, 3.355),
   (9, 1.833, 2.262, 3.250),
   (10, 1.812, 2.228, 3.169),
   (15, 1.753, 2.131, 2.947),
   (20, 1.725, 2.086, 2.845),
   (25, 1.708, 2.060, 2.787),
   (30, 1.697, 2.042, 2.750),
   (40, 1.684, 2.021, 2.704),
   (50, 1.676, 2.009, 2.678),
   (60, 1.671, 2.000, 2.660),
   (80, 1.664, 1.990, 2.639),
   (100, 1.660, 1.984, 2.626)]

/-- Embeds `Statistics::findTValue` (implementation lines 103-161): NaN
(`none`) for `df < 1` or an unsupported confidence level; the
Z-score constants for `df > 100`; otherwise `std::map::lower_bound`
picks the first table key at or above `df` (falling back to the last
entry, key 100). -/
def findTValue (confidence_level : ℚ) (df : ℤ) : Option ℚ :=
  if df < 1 then none
  else if 100 < df then
    if confidence_level = 90 then some 1.645
    else if confidence_level = 95 then some 1.960
    else if confidence_level = 99 then some 2.576
    else none
  else
    let entry := (tTable.find? (fun e => decide (df ≤ e.1))).getD
      (tTable.getLastD (100, 1.660, 1.984, 2.626))
    if confidence_level = 90 then some entry.2.1
    else if confidence_level = 95 then some entry.2.2.1
    else if confidence_level = 99 then some entry.2.2.2
    else none

end Statistics

/-- Embeds `ConfidenceInterval` (MonteCarloSimulator.h lines 24-28). -/
structure ConfidenceInterval where
  level : ℚ
  lower_bound : ℝ
  upper_bound : ℝ

/-- The confidence-interval stage of `analyzeEfficientResults(k)`
(MonteCarloSimulator.cpp lines 1625-1641): `none` when fewer than two
batch means were collected; otherwise batched means at 90/95/99%
confidence with `std_error = sqrt(variance_of_means / K)` and
`df = K - 1`. -/
noncomputable def analyzeEfficientCI (batch_means : List ℝ) :
    Option (List ConfidenceInterval) :=
  if batch_means.length < 2 then none
  else
    let mean_of_means := Statistics.calculateMean batch_means
    let variance_of_means := Statistics.calculateVariance batch_means mean_of_means
    let std_error := Real.sqrt (variance_of_means / batch_means.length)
    let df : ℤ := (batch_means.length : ℤ) - 1
    let t90 : ℝ := (((Statistics.findTValue 90 df).getD 0 : ℚ) : ℝ)
    let t95 : ℝ := (((Statistics.findTValue 95 df).getD 0 : ℚ) : ℝ)
    let t99 : ℝ := (((Statistics.findTValue 99 df).getD 0 : ℚ) : ℝ)
    some [⟨90, mean_of_means - t90 * std_error, mean_of_means + t90 * std_error⟩,
          ⟨95, mean_of_means - t95 * std_error, mean_of_means + t95 * std_error⟩,
          ⟨99, mean_of_means - t99 * std_error, mean_of_means + t99 * std_error⟩]

/-- The batched-means interval exactly as the specification words it:
`mean_of_means` and `variance_of_means` are the mean and (population)
variance of the `K` batch means, `standard_error =
sqrt(variance_of_means / K)`, `df = K - 1`, and the interval is
`mean_of_means ± t(df, confidence) * standard_error`. -/
noncomputable def specBatchedMeansInterval (batch_means : List ℝ) (conf : ℚ) :
    ConfidenceInterval :=
  let K : ℝ := batch_means.length
  let mean_of_means := batch_means.sum / K
  let variance_of_means :=
    ((batch_means.map (fun v => (v - batch_means.sum / K) ^ 2)).sum) / K
  let standard_error := Real.sqrt (variance_of_means / K)
  let t : ℝ :=
    (((Statistics.findTValue conf ((batch_means.length : ℤ) - 1)).getD 0 : ℚ) : ℝ)
  ⟨conf, mean_of_means - t * standard_error, mean_of_means + t * standard_error⟩

/-- The normal-approximation constants the spec prescribes for
`df > 100`. -/
def normalApprox (conf : ℚ) : Option ℚ :=
  if conf = 90 then some 1.645
  else if conf = 95 then some 1.960
  else if conf = 99 then some 2.576
  else none

/-- Claim C6: with `K >= 2` batch means the Efficient-mode intervals
are exactly the batched-means intervals of the spec formula at the
90/95/99 confidence levels; with fewer than 2 batch means no interval
is produced; and the critical value comes from the normal
approximation for `df > 100` and from the lookup table (first key at
or above `df`) for `1 <= df <= 100`. -/
theorem batched_means_ci_spec :
    (∀ batch_means : List ℝ, batch_means.length < 2 →
        analyzeEfficientCI batch_means = none) ∧
    (∀ batch_means : List ℝ, 2 ≤ batch_means.length →
        analyzeEfficientCI batch_means =
          some [specBatchedMeansInterval batch_means 90,
                specBatchedMeansInterval batch_means 95,
                specBatchedMeansInterval batch_means 99]) ∧
    (∀ (conf : ℚ) (df : ℤ), 100 < df →
        Statistics.findTValue conf df = normalApprox conf) ∧
    (∀ df : ℤ, 1 ≤ df → df ≤ 100 →
        ∃ e ∈ Statistics.tTable, df ≤ e.1 ∧
          Statistics.findTValue 90 df = some e.2.1 ∧
          Statistics.findTValue 95 df = some e.2.2.1 ∧
          Statistics.findTValue 99 df = some e.2.2.2) := by
  refine ⟨?_, ?_, ?_, ?_⟩
  · intro bm h2
    simp [analyzeEfficientCI, h2]
  · intro bm h2
    have hne : bm ≠ [] := by
      intro h
      rw [h] at h2
      simp at h2
    have h2' : ¬ bm.length < 2 := by omega
    unfold analyzeEfficientCI specBatchedMeansInterval
    unfold Statistics.calculateMean Statistics.calculateVariance
    simp [hne, h2']
  · intro conf df hdf
    unfold Statistics.findTValue normalApprox
    rw [if_neg (by omega), if_pos hdf]
  · intro df h1 h100
    have hfind : (Statistics.tTable.find? (fun e => decide (df ≤ e.1))).isSome := by
      rw [List.find?_isSome]
      refine ⟨(100, 1.660, 1.984, 2.626), ?_, by simpa using h100⟩
      simp [Statistics.tTable]
    obtain ⟨e, he⟩ := Option.isSome_iff_exists.mp hfind
    refine ⟨e, List.mem_of_find?_eq_some he, by simpa using List.find?_some he,
      ?_, ?_, ?_⟩ <;>
    · unfold Statistics.findTValue
      rw [if_neg (by omega), if_neg (by omega), he]
      simp

/-- Witness for `batched_means_ci_spec` at the batch means `[5, 5]`
(where the interval degenerates to `[5, 5]` since the variance is 0
and `t(1, 90) = 6.314`), at `df = 101` for the normal branch and at
`df = 50` for the table branch. -/
theorem batched_means_ci_spec_witness :
    (analyzeEfficientCI [(5 : ℝ), 5] =
      some [specBatchedMeansInterval [(5 : ℝ), 5] 90,
            specBatchedMeansInterval [(5 : ℝ), 5] 95,
            specBatchedMeansInterval [(5 : ℝ), 5] 99]) ∧
    (specBatchedMeansInterval [(5 : ℝ), 5] 90).lower_bound = 5 ∧
    (specBatchedMeansInterval [(5 : ℝ), 5] 90).upper_bound = 5 ∧
    (Statistics.findTValue 90 101 = normalApprox 90) ∧
    (∃ e ∈ Statistics.tTable, (50 : ℤ) ≤ e.1 ∧
      Statistics.findTValue 90 50 = some e.2.1 ∧
      Statistics.findTValue 95 50 = some e.2.2.1 ∧
      Statistics.findTValue 99 50 = some e.2.2.2) := by
  have hzero : (((([(5 : ℝ), 5]).map
      (fun v => (v - ([(5 : ℝ), 5]).sum / (([(5 : ℝ), 5]).length : ℝ)) ^ 2)).sum)
        / (([(5 : ℝ), 5]).length : ℝ)) / (([(5 : ℝ), 5]).length : ℝ) = 0 := by
    norm_num
  have hlb : (specBatchedMeansInterval [(5 : ℝ), 5] 90).lower_bound = 5 := by
    simp only [specBatchedMeansInterval]
    rw [hzero, Real.sqrt_zero]
    norm_num
  have hub : (specBatchedMeansInterval [(5 : ℝ), 5] 90).upper_bound = 5 := by
    simp only [specBatchedMeansInterval]
    rw [hzero, Real.sqrt_zero]
    norm_num
  exact ⟨batched_means_ci_spec.2.1 [5, 5] (by norm_num), hlb, hub,
    batched_means_ci_spec.2.2.1 90 101 (by norm_num),
    batched_means_ci_spec.2.2.2 50 (by norm_num) (by norm_num)⟩

end SlotMC
